import Mathlib

/-!
Shared pixel buffer of the x11 driver (shiny/driver/x11driver/buffer.go).

A shallow embedding of `bufferImpl` and of its methods `preUpload`,
`postUpload`, `Release` and `cleanUp`, followed by the properties proved of
them.

Conventions of the embedding.

* The mutex `mu` is not modelled: every method call is one sequential step.
* `nUpload` is a `uint32`; it is a `Nat` here and the increment and the
  decrement are taken modulo `2 ^ 32`.
* A Go panic does not undo the assignments made before it, so a call yields
  an `Outcome`: the state at the point where the call returned or panicked,
  and the panic message, if any.
* The calls the methods make to code outside the buffer (`swizzle.BGRA`,
  `delete` on the registry, `shm.Detach`, `shmClose`, `log.Printf`) are
  recorded, in order, in a ghost `trace`.
-/

namespace x11driver

/-- Modulus of the `uint32` counter `nUpload`. -/
def uint32Mod : Nat := 4294967296

/-- Pixel coordinates, as `image.Point`. -/
structure Point where
  X : Int
  Y : Int
  deriving DecidableEq, Repr

/-- Payload of a completion, as `screen.UploadedEvent`; the buffer and the
uploader are identified by a number. -/
structure UploadedEvent where
  Buffer : Nat
  Uploader : Nat
  deriving DecidableEq, Repr

/-- Pending-completion record kept in `screenImpl.uploads`. -/
structure completion where
  sender : Nat
  event : UploadedEvent
  deriving DecidableEq, Repr

/-- Modelled from the spec: the part of `screenImpl` (declared in screen.go,
which is not among the sources) that buffer.go touches. `buffers` is the
registry keyed by segment identity (only its key set is kept, the values
being pointers to the buffers), `uploads` the pending completions keyed by
sequence number. -/
structure screenImpl where
  buffers : List Nat
  uploads : List (Nat × completion)
  deriving DecidableEq, Repr

/-- The fields of `bufferImpl`. `s` is the screen the buffer points to, held
by value since one buffer is in focus; `buf` is the shared memory, a list of
bytes; `rgba` aliases `buf` and is not a field of its own. -/
structure bufferImpl where
  s : screenImpl
  addr : Nat
  buf : List Nat
  size : Point
  xs : Nat
  nUpload : Nat
  released : Bool
  cleanedUp : Bool
  deriving DecidableEq, Repr

/-- Rectangle with corners `Min` and `Max`, as `image.Rectangle`. -/
structure Rectangle where
  Min : Point
  Max : Point
  deriving DecidableEq, Repr

/-- Arguments of one `shm.PutImage` request, in the order of the call in
`upload`. `mem` is a ghost field: the content of the shared memory at the
moment the request is issued. -/
structure PutImageRequest where
  drawable : Nat
  gc : Nat
  totalWidth : Nat
  totalHeight : Nat
  srcX : Nat
  srcY : Nat
  srcWidth : Nat
  srcHeight : Nat
  dstX : Int
  dstY : Int
  depth : Nat
  format : Nat
  sendEvent : Nat
  shmseg : Nat
  offset : Nat
  mem : List Nat
  deriving DecidableEq, Repr

/-- Calls that leave the buffer, in the order they are made. `swizzle` is the
call of `swizzle.BGRA` in `preUpload`, `unswizzle` the one in `postUpload`,
`putImage` the call of `shm.PutImage` in `upload`, `recordUpload` the
assignment to `b.s.uploads` under the lock of the screen. -/
inductive Event where
  | swizzle : Event
  | unswizzle : Event
  | deleteBuffer (xs : Nat) : Event
  | detach (xs : Nat) : Event
  | shmClose (addr : Nat) : Event
  | logPrintf (msg : String) : Event
  | putImage (r : PutImageRequest) : Event
  | recordUpload (seq : Nat) : Event
  deriving DecidableEq, Repr

/-- A buffer together with its environment: what `shmClose` answers for the
buffer's mapping (`none` for a nil error) and the ghost trace. -/
structure World where
  b : bufferImpl
  shmCloseErr : Option String
  trace : List Event
  deriving DecidableEq, Repr

/-- Result of a call: the state reached and the panic message, if the call
panicked. -/
structure Outcome where
  world : World
  panic : Option String
  deriving DecidableEq, Repr

/-- Message of the panic in `preUpload`. -/
def uploadAfterRelease : String :=
  "x11driver: Buffer.Upload called after Buffer.Release"

/-- Message of the panic in `cleanUp`. -/
def cleanUpTwice : String :=
  "x11driver: Buffer clean-up occurred twice"

/-- Modelled from the spec: `swizzle.BGRA` (package driver/internal/swizzle,
not among the sources), the in-place transform between the native and the
transfer byte order, which swaps bytes 0 and 2 of every 4-byte pixel. The
memory of a buffer holds whole pixels (its length is width * height * 4);
bytes after the last whole pixel are left as they are. -/
def BGRA : List Nat → List Nat
  | b0 :: b1 :: b2 :: b3 :: rest => b2 :: b1 :: b0 :: b3 :: BGRA rest
  | rest => rest

/-- The method `cleanUp`: records that clean-up happened, panics when it had
happened before, and otherwise tears the buffer down. -/
def cleanUp (w : World) : Outcome :=
  let alreadyCleanedUp := w.b.cleanedUp
  let w1 : World := { w with b := { w.b with cleanedUp := true } }
  if alreadyCleanedUp then
    { world := w1, panic := some cleanUpTwice }
  else
    let w2 : World :=
      { w1 with
        b := { w1.b with
          s := { w1.b.s with buffers := w1.b.s.buffers.filter (fun k => k != w1.b.xs) } }
        trace := w1.trace ++ [Event.deleteBuffer w1.b.xs] }
    let w3 : World := { w2 with trace := w2.trace ++ [Event.detach w2.b.xs] }
    match w3.shmCloseErr with
    | none =>
      { world := { w3 with trace := w3.trace ++ [Event.shmClose w3.b.addr] }, panic := none }
    | some err =>
      { world := { w3 with
          trace := w3.trace ++
            [Event.shmClose w3.b.addr, Event.logPrintf ("x11driver: shmClose: " ++ err)] }
        panic := none }

/-- The method `preUpload`. -/
def preUpload (w : World) : Outcome :=
  if w.b.released then
    { world := w, panic := some uploadAfterRelease }
  else
    let needsSwizzle := w.b.nUpload == 0
    let w1 : World := { w with b := { w.b with nUpload := (w.b.nUpload + 1) % uint32Mod } }
    if needsSwizzle then
      { world := { w1 with
          b := { w1.b with buf := BGRA w1.b.buf }
          trace := w1.trace ++ [Event.swizzle] }
        panic := none }
    else
      { world := w1, panic := none }

/-- The method `postUpload`. The decrement of the `uint32` counter is the
addition of `2 ^ 32 - 1` modulo `2 ^ 32`. -/
def postUpload (w : World) : Outcome :=
  let w1 : World :=
    { w with b := { w.b with nUpload := (uint32Mod - 1 + w.b.nUpload) % uint32Mod } }
  let more := w1.b.nUpload != 0
  let released := w1.b.released
  if more then
    { world := w1, panic := none }
  else if released then
    cleanUp w1
  else
    { world := { w1 with
        b := { w1.b with buf := BGRA w1.b.buf }
        trace := w1.trace ++ [Event.unswizzle] }
      panic := none }

/-- The method `Release`. -/
def Release (w : World) : Outcome :=
  let doCleanUp := !w.b.released && w.b.nUpload == 0
  let w1 : World := { w with b := { w.b with released := true } }
  if doCleanUp then
    cleanUp w1
  else
    { world := w1, panic := none }

/-- The three calls a client makes on a buffer. -/
inductive Call where
  | preUpload : Call
  | postUpload : Call
  | Release : Call
  deriving DecidableEq, Repr

/-- One call. -/
def step : Call → World → Outcome
  | Call.preUpload, w => preUpload w
  | Call.postUpload, w => postUpload w
  | Call.Release, w => Release w

/-- State after a sequence of calls. A call that panics leaves the state it
had reached and the sequence goes on from there, which covers a caller that
recovers as well as one that stops at the panic. -/
def exec : List Call → World → World
  | [], w => w
  | c :: cs, w => exec cs (step c w).world

/-- Outcome of a sequence of calls that stops at the first panic. -/
def run : List Call → World → Outcome
  | [], w => { world := w, panic := none }
  | c :: cs, w =>
    match (step c w).panic with
    | none => run cs (step c w).world
    | some msg => { world := (step c w).world, panic := some msg }

/-- The events of the teardown body of `cleanUp`, in order. -/
def teardown (w : World) : List Event :=
  match w.shmCloseErr with
  | none => [Event.deleteBuffer w.b.xs, Event.detach w.b.xs, Event.shmClose w.b.addr]
  | some err =>
    [Event.deleteBuffer w.b.xs, Event.detach w.b.xs, Event.shmClose w.b.addr,
      Event.logPrintf ("x11driver: shmClose: " ++ err)]

/-- Number of segment detaches in a trace. -/
def detaches (t : List Event) : Nat :=
  t.countP (fun e => match e with | Event.detach _ => true | _ => false)

/-- Number of registry removals in a trace. -/
def removals (t : List Event) : Nat :=
  t.countP (fun e => match e with | Event.deleteBuffer _ => true | _ => false)

/-- Number of unmaps in a trace. -/
def unmaps (t : List Event) : Nat :=
  t.countP (fun e => match e with | Event.shmClose _ => true | _ => false)

/-- Number of swizzles (calls of `swizzle.BGRA` by `preUpload`) in a trace. -/
def swizzles (t : List Event) : Nat :=
  t.countP (fun e => match e with | Event.swizzle => true | _ => false)

/-- Number of unswizzles (calls of `swizzle.BGRA` by `postUpload`) in a trace. -/
def unswizzles (t : List Event) : Nat :=
  t.countP (fun e => match e with | Event.unswizzle => true | _ => false)

/-- A freshly constructed buffer: nothing in flight, not released, not
cleaned up, no call made yet. -/
def fresh (w : World) : Prop :=
  w.b.nUpload = 0 ∧ w.b.released = false ∧ w.b.cleanedUp = false ∧ w.trace = []

instance (w : World) : Decidable (fresh w) := by
  unfold fresh; infer_instance

/-- A 1x1 buffer, freshly constructed, with pixel bytes 1, 2, 3, 4, segment 7,
registered in its screen. -/
def sample : World :=
  { b := { s := { buffers := [7], uploads := [] }
           addr := 100
           buf := [1, 2, 3, 4]
           size := { X := 1, Y := 1 }
           xs := 7
           nUpload := 0
           released := false
           cleanedUp := false }
    shmCloseErr := none
    trace := [] }

/-- A 4x4 buffer that was never uploaded: 64 zero bytes. -/
def sample4x4 : World :=
  { b := { s := { buffers := [3, 9], uploads := [] }
           addr := 4096
           buf := List.replicate 64 0
           size := { X := 4, Y := 4 }
           xs := 9
           nUpload := 0
           released := false
           cleanedUp := false }
    shmCloseErr := none
    trace := [] }

/-- A sequence of calls in which `postUpload` is only called while an upload
is in flight (`nUpload > 0`). -/
def admissible : List Call → World → Bool
  | [], _ => true
  | Call.postUpload :: cs, w =>
    decide (0 < w.b.nUpload) && admissible cs (postUpload w).world
  | Call.preUpload :: cs, w => admissible cs (preUpload w).world
  | Call.Release :: cs, w => admissible cs (Release w).world

/-- An admissible sequence in which, moreover, `preUpload` is only called
while the counter is below its largest value `2 ^ 32 - 1`, so that the
increment does not wrap. -/
def admissibleBelow : List Call → World → Bool
  | [], _ => true
  | Call.postUpload :: cs, w =>
    decide (0 < w.b.nUpload) && admissibleBelow cs (postUpload w).world
  | Call.preUpload :: cs, w =>
    decide (w.b.nUpload < uint32Mod - 1) && admissibleBelow cs (preUpload w).world
  | Call.Release :: cs, w => admissibleBelow cs (Release w).world

/-- A sequence of `preUpload` and `postUpload` calls, started with `d` uploads
open, every initial part of which has at least as many `preUpload` as
`postUpload` calls. -/
def nested : Nat → List Call → Bool
  | _, [] => true
  | d, Call.preUpload :: cs => nested (d + 1) cs
  | 0, Call.postUpload :: _ => false
  | d + 1, Call.postUpload :: cs => nested d cs
  | _, Call.Release :: _ => false

/-- A nested sequence in which, moreover, fewer than `2 ^ 32` uploads are open
at any time. -/
def nestedBelow : Nat → List Call → Bool
  | _, [] => true
  | d, Call.preUpload :: cs => decide (d + 1 < uint32Mod) && nestedBelow (d + 1) cs
  | 0, Call.postUpload :: _ => false
  | d + 1, Call.postUpload :: cs => nestedBelow d cs
  | _, Call.Release :: _ => false

/-- A nested sequence that closes every upload it opens: it ends with no
upload open. -/
def balanced : Nat → List Call → Bool
  | d, [] => d == 0
  | d, Call.preUpload :: cs => balanced (d + 1) cs
  | 0, Call.postUpload :: _ => false
  | d + 1, Call.postUpload :: cs => balanced d cs
  | _, Call.Release :: _ => false

/-- Invariant of the release protocol: clean-up has happened exactly when the
buffer is released with nothing in flight, and the teardown ran once if
clean-up has happened and never otherwise. -/
def CleanInv (w : World) : Prop :=
  (w.b.cleanedUp = true ↔ (w.b.released = true ∧ w.b.nUpload = 0)) ∧
  removals w.trace = (if w.b.cleanedUp then 1 else 0) ∧
  detaches w.trace = (if w.b.cleanedUp then 1 else 0) ∧
  unmaps w.trace = (if w.b.cleanedUp then 1 else 0)

/-- Byte-order invariant relative to the native content `m0`: native while
nothing is in flight and the buffer is not cleaned up, transfer order while
an upload is in flight. -/
def OrderInv (m0 : List Nat) (w : World) : Prop :=
  w.b.nUpload < uint32Mod ∧
  (w.b.nUpload = 0 → w.b.cleanedUp = false → w.b.buf = m0) ∧
  (0 < w.b.nUpload → w.b.buf = BGRA m0)

/-- Invariant of a nested sequence of uploads with `d` of them open: the
buffer is not released, the counter equals `d`, and there is one swizzle more
than unswizzles while uploads are open and equally many otherwise. -/
def NestInv (d : Nat) (w : World) : Prop :=
  w.b.released = false ∧ w.b.nUpload = d ∧ d < uint32Mod ∧
  swizzles w.trace = unswizzles w.trace + (if d = 0 then 0 else 1)

/-- Invariant of a nested sequence of uploads with `d` of them open, whatever
the size of `d`: the counter is `d` modulo `2 ^ 32`, and the memory has been
swizzled once for every multiple of `2 ^ 32` below `d`, so it holds the
native content `m0` when that number is even and its swizzle otherwise. -/
def UpInv (d : Nat) (m0 : List Nat) (w : World) : Prop :=
  w.b.released = false ∧ w.b.nUpload = d % uint32Mod ∧
  w.b.buf = (if ((d + (uint32Mod - 1)) / uint32Mod) % 2 = 0 then m0 else BGRA m0)

/-- A sequence of `2 ^ 32` calls of `preUpload`: one call, `2 ^ 32 - 2` calls,
one call. -/
def wrapSeq : List Call :=
  Call.preUpload :: (List.replicate 4294967294 Call.preUpload ++ [Call.preUpload])

/-- Position from which `swizzle.BGRA` takes the byte it puts at position `i`:
bytes 0 and 2 of every 4-byte pixel change places. -/
def swapIndex (i : Nat) : Nat :=
  if i % 4 = 0 then i + 2 else if i % 4 = 2 then i - 2 else i

/-! ### The method `upload` and the accessors -/

/-- Value of a Go `int` (64 bits) after an operation whose exact result is
`x`: the two's complement wrap-around. -/
def wrapInt (x : Int) : Int :=
  (x + 9223372036854775808) % 18446744073709551616 - 9223372036854775808

/-- The Go conversion `uint16(x)` of an `int`. -/
def toUint16 (x : Int) : Nat := (x % 65536).toNat

/-- The Go conversion `int16(x)` of an `int`. -/
def toInt16 (x : Int) : Int := (x + 32768) % 65536 - 32768

/-- The method `Add` of `image.Rectangle` (Go standard library): the
rectangle translated by `p`. -/
def Rectangle.Add (r : Rectangle) (p : Point) : Rectangle :=
  { Min := { X := wrapInt (r.Min.X + p.X), Y := wrapInt (r.Min.Y + p.Y) }
    Max := { X := wrapInt (r.Max.X + p.X), Y := wrapInt (r.Max.Y + p.Y) } }

/-- The method `Sub` of `image.Rectangle` (Go standard library): the
rectangle translated by `-p`. -/
def Rectangle.Sub (r : Rectangle) (p : Point) : Rectangle :=
  { Min := { X := wrapInt (r.Min.X - p.X), Y := wrapInt (r.Min.Y - p.Y) }
    Max := { X := wrapInt (r.Max.X - p.X), Y := wrapInt (r.Max.Y - p.Y) } }

/-- The method `Dx` of `image.Rectangle`: the width. -/
def Rectangle.Dx (r : Rectangle) : Int := wrapInt (r.Max.X - r.Min.X)

/-- The method `Dy` of `image.Rectangle`: the height. -/
def Rectangle.Dy (r : Rectangle) : Int := wrapInt (r.Max.Y - r.Min.Y)

/-- A value of the Go type `int`. -/
def isInt (x : Int) : Prop := -9223372036854775808 ≤ x ∧ x < 9223372036854775808

instance (x : Int) : Decidable (isInt x) := by
  unfold isInt; infer_instance

/-- The method `Size`. -/
def Size (b : bufferImpl) : Point := b.size

/-- The method `Bounds`: `image.Rectangle{Max: b.size}`, the other corner
being the zero point. -/
def Bounds (b : bufferImpl) : Rectangle := { Min := { X := 0, Y := 0 }, Max := b.size }

/-- The constant `xproto.ImageFormatZPixmap`. -/
def ImageFormatZPixmap : Nat := 2

/-- The destination rectangle that `upload` computes. -/
def destRect (dp : Point) (sr : Rectangle) : Rectangle := (sr.Sub sr.Min).Add dp

/-- The request that `upload` passes to `shm.PutImage` for a buffer `b` whose
memory is `b.buf` at that moment. -/
def putImageRequest (b : bufferImpl) (xd xg depth : Nat) (dp : Point) (sr : Rectangle) :
    PutImageRequest :=
  { drawable := xd
    gc := xg
    totalWidth := toUint16 b.size.X
    totalHeight := toUint16 b.size.Y
    srcX := toUint16 sr.Min.X
    srcY := toUint16 sr.Min.Y
    srcWidth := toUint16 (destRect dp sr).Dx
    srcHeight := toUint16 (destRect dp sr).Dy
    dstX := toInt16 (destRect dp sr).Min.X
    dstY := toInt16 (destRect dp sr).Min.Y
    depth := depth
    format := ImageFormatZPixmap
    sendEvent := 1
    shmseg := b.xs
    offset := 0
    mem := b.buf }

/-- Assignment `m[k] = v` on a Go map kept as an association list. -/
def mapSet (m : List (Nat × completion)) (k : Nat) (v : completion) :
    List (Nat × completion) :=
  (k, v) :: m.filter (fun e => e.1 != k)

/-- Look-up `m[k]` on a Go map kept as an association list. -/
def mapGet (m : List (Nat × completion)) (k : Nat) : Option completion :=
  (m.find? (fun e => e.1 == k)).map (fun e => e.2)

/-- The method `upload`. `seq` is the sequence number of the cookie that
`shm.PutImage` returns; `u`, `xd`, `xg` and `sender` name the uploader, the
drawable, the graphics context and the sender. The buffer is named in the
event by its segment, the key under which the registry holds it. A panic of
`preUpload` ends the call. -/
def upload (seq : Nat) (u xd xg depth : Nat) (dp : Point) (sr : Rectangle) (sender : Nat)
    (w : World) : Outcome :=
  match (preUpload w).panic with
  | some msg => { world := (preUpload w).world, panic := some msg }
  | none =>
    let w1 := (preUpload w).world
    let w2 : World :=
      { w1 with trace := w1.trace ++ [Event.putImage (putImageRequest w1.b xd xg depth dp sr)] }
    let w3 : World :=
      { w2 with
        b := { w2.b with
          s := { w2.b.s with
            uploads := mapSet w2.b.s.uploads seq
              { sender := sender, event := { Buffer := w2.b.xs, Uploader := u } } } }
        trace := w2.trace ++ [Event.recordUpload seq] }
    { world := w3, panic := none }

/-- The part of `upload` up to and including the call of `shm.PutImage`: the
state at the moment the transfer command has been issued, before the
completion is recorded. -/
def uploadIssue (xd xg depth : Nat) (dp : Point) (sr : Rectangle) (w : World) : Outcome :=
  match (preUpload w).panic with
  | some msg => { world := (preUpload w).world, panic := some msg }
  | none =>
    let w1 := (preUpload w).world
    { world :=
        { w1 with trace := w1.trace ++ [Event.putImage (putImageRequest w1.b xd xg depth dp sr)] }
      panic := none }

/-- Number of transfer commands in a trace. -/
def putImages (t : List Event) : Nat :=
  t.countP (fun e => match e with | Event.putImage _ => true | _ => false)

/-- Number of pending-completion entries recorded in a trace. -/
def recordings (t : List Event) : Nat :=
  t.countP (fun e => match e with | Event.recordUpload _ => true | _ => false)

/-- A source rectangle of width 65536 and height 1. -/
def wideRect : Rectangle := { Min := { X := 0, Y := 0 }, Max := { X := 65536, Y := 1 } }

/-! ### Sequences that release -/

/-- A sequence of calls in which no `preUpload` comes after a `Release` and
every initial part has at least as many `preUpload` as `postUpload` calls.
`rel` tells whether a `Release` has come, `d` is the number of uploads open. -/
def orderly : Bool → Nat → List Call → Bool
  | _, _, [] => true
  | false, d, Call.preUpload :: cs => orderly false (d + 1) cs
  | true, _, Call.preUpload :: _ => false
  | _, 0, Call.postUpload :: _ => false
  | rel, d + 1, Call.postUpload :: cs => orderly rel d cs
  | _, d, Call.Release :: cs => orderly true d cs

/-- An orderly sequence in which, moreover, fewer than `2 ^ 32` uploads are
open at any time. -/
def orderlyBelow : Bool → Nat → List Call → Bool
  | _, _, [] => true
  | false, d, Call.preUpload :: cs => decide (d + 1 < uint32Mod) && orderlyBelow false (d + 1) cs
  | true, _, Call.preUpload :: _ => false
  | _, 0, Call.postUpload :: _ => false
  | rel, d + 1, Call.postUpload :: cs => orderlyBelow rel d cs
  | _, d, Call.Release :: cs => orderlyBelow true d cs

/-- Invariant of an orderly sequence: `rel` is the flag `released`, `d` the
counter, and clean-up has happened exactly when the buffer is released with
nothing in flight. -/
def RunInv (rel : Bool) (d : Nat) (w : World) : Prop :=
  w.b.released = rel ∧ w.b.nUpload = d ∧ d < uint32Mod ∧
  (w.b.cleanedUp = true ↔ (w.b.released = true ∧ w.b.nUpload = 0))

/-- The `2 ^ 32` calls of `preUpload` of `wrapSeq`, a `Release`, and `2 ^ 32`
calls of `postUpload`: one call, `2 ^ 32 - 2` calls, one call. -/
def wrapPanicSeq : List Call :=
  wrapSeq ++ (Call.Release :: Call.postUpload ::
    (List.replicate 4294967294 Call.postUpload ++ [Call.postUpload]))

/-! ### Concurrent callers

The mutex splits `preUpload` and `postUpload` in two parts each: the section
under the lock, which reads and writes the three scalar fields and leaves its
decision in local variables, and the rest, which runs without the lock. -/

/-- The locked section of `preUpload` (up to the second `Unlock`): the state
it leaves, the panic if the buffer is released, and the local
`needsSwizzle`. -/
def preUploadLocked (w : World) : Outcome × Bool :=
  if w.b.released then
    ({ world := w, panic := some uploadAfterRelease }, false)
  else
    ({ world := { w with b := { w.b with nUpload := (w.b.nUpload + 1) % uint32Mod } }
       panic := none },
     w.b.nUpload == 0)

/-- The part of `preUpload` after the locked section. -/
def preUploadUnlocked (needsSwizzle : Bool) (w : World) : World :=
  if needsSwizzle then
    { w with
      b := { w.b with buf := BGRA w.b.buf }
      trace := w.trace ++ [Event.swizzle] }
  else
    w

/-- The locked section of `postUpload`: the state it leaves and the locals
`more` and `released`. -/
def postUploadLocked (w : World) : World × Bool × Bool :=
  let w1 : World :=
    { w with b := { w.b with nUpload := (uint32Mod - 1 + w.b.nUpload) % uint32Mod } }
  (w1, w1.b.nUpload != 0, w1.b.released)

/-- The part of `postUpload` after the locked section. -/
def postUploadUnlocked (more released : Bool) (w : World) : Outcome :=
  if more then
    { world := w, panic := none }
  else if released then
    cleanUp w
  else
    { world := { w with
        b := { w.b with buf := BGRA w.b.buf }
        trace := w.trace ++ [Event.unswizzle] }
      panic := none }

/-- Where a caller stands, with the values of its local variables: between
the two parts of `preUpload`, between `preUpload` and `postUpload` (its
upload is in flight), or between the two parts of `postUpload`. -/
inductive Caller where
  | preDecided (needsSwizzle : Bool) : Caller
  | uploading : Caller
  | postDecided (more released : Bool) : Caller
  deriving DecidableEq, Repr

/-- The buffer and the callers that are inside the upload protocol. -/
structure Sys where
  w : World
  callers : List Caller
  deriving DecidableEq, Repr

/-- One atomic step of one caller. -/
inductive Action where
  | preLock : Action
  | preUnlock (needsSwizzle : Bool) : Action
  | postLock : Action
  | postUnlock (more released : Bool) : Action
  deriving DecidableEq, Repr

/-- Effect of an atomic step; `none` when no caller stands at that point or
the step panics. `preLock` is the step of a caller that enters `preUpload`;
`preUnlock ns` is the step of a caller that left the locked section with
`needsSwizzle = ns` and now runs the rest and returns; `postLock` is the step
of a caller whose upload is in flight and that enters `postUpload`;
`postUnlock more rel` runs the rest of `postUpload`. -/
def act : Action → Sys → Option Sys
  | Action.preLock, s =>
    match (preUploadLocked s.w).1.panic with
    | some _ => none
    | none =>
      some { w := (preUploadLocked s.w).1.world
             callers := Caller.preDecided (preUploadLocked s.w).2 :: s.callers }
  | Action.preUnlock ns, s =>
    if Caller.preDecided ns ∈ s.callers then
      some { w := preUploadUnlocked ns s.w
             callers := Caller.uploading :: s.callers.erase (Caller.preDecided ns) }
    else none
  | Action.postLock, s =>
    if Caller.uploading ∈ s.callers then
      some { w := (postUploadLocked s.w).1
             callers := Caller.postDecided (postUploadLocked s.w).2.1 (postUploadLocked s.w).2.2 ::
               s.callers.erase Caller.uploading }
    else none
  | Action.postUnlock more rel, s =>
    if Caller.postDecided more rel ∈ s.callers then
      match (postUploadUnlocked more rel s.w).panic with
      | some _ => none
      | none =>
        some { w := (postUploadUnlocked more rel s.w).world
               callers := s.callers.erase (Caller.postDecided more rel) }
    else none

/-- State after a schedule of atomic steps, if every step could be taken. -/
def runActs : List Action → Sys → Option Sys
  | [], s => some s
  | a :: as, s =>
    match act a s with
    | none => none
    | some s1 => runActs as s1

/-- A schedule in which a caller enters `preUpload` only while the counter is
below `2 ^ 32 - 1`. -/
def actsBelow : List Action → Sys → Bool
  | [], _ => true
  | a :: as, s =>
    (match a with
      | Action.preLock => decide (s.w.b.nUpload < uint32Mod - 1)
      | _ => true) &&
    (match act a s with
      | none => true
      | some s1 => actsBelow as s1)

/-- Number of callers that have claimed a swizzle and not yet done it. -/
def pendingSwizzles (s : Sys) : Nat := s.callers.count (Caller.preDecided true)

/-- Number of callers that have claimed an unswizzle and not yet done it. -/
def pendingUnswizzles (s : Sys) : Nat := s.callers.count (Caller.postDecided false false)

/-- Number of callers that have returned from `preUpload` and not yet entered
`postUpload`. -/
def inFlight (s : Sys) : Nat := s.callers.count Caller.uploading

/-- Invariant of the concurrent protocol for a native content `m0`: the
buffer is not released; the counter counts the callers between the locked
section of `preUpload` and that of `postUpload`; every move of the counter
from 0 and back to 0 is matched by one swizzle, respectively unswizzle, done
or pending; and the memory is `m0` swizzled as often as passes were done. -/
def ConInv (m0 : List Nat) (s : Sys) : Prop :=
  s.w.b.released = false ∧
  s.w.b.nUpload =
    s.callers.count (Caller.preDecided true) + s.callers.count (Caller.preDecided false) +
      s.callers.count Caller.uploading ∧
  s.w.b.nUpload < uint32Mod ∧
  s.callers.count (Caller.postDecided false true) = 0 ∧
  swizzles s.w.trace + pendingSwizzles s =
    unswizzles s.w.trace + pendingUnswizzles s + (if s.w.b.nUpload = 0 then 0 else 1) ∧
  s.w.b.buf = (if (swizzles s.w.trace + unswizzles s.w.trace) % 2 = 0 then m0 else BGRA m0)

/-- The sample buffer with no caller inside the protocol. -/
def sampleSys : Sys := { w := sample, callers := [] }

/-- The sample buffer after the `2 ^ 32` calls of `preUpload` of `wrapSeq`: the
counter is back at 0 and the memory is swizzled. -/
def wrapped : World :=
  { sample with
    b := { sample.b with nUpload := 0, buf := [3, 2, 1, 4] }
    trace := [Event.swizzle] }

/-! ## Helper lemmas -/

theorem BGRA_BGRA (m : List Nat) : BGRA (BGRA m) = m := by
  induction m using BGRA.induct with
  | case1 b0 b1 b2 b3 rest ih => simp [BGRA, ih]
  | case2 rest h =>
    have h1 : BGRA rest = rest := by
      unfold BGRA
      split
      · exact absurd rfl (h _ _ _ _ _)
      · rfl
    rw [h1, h1]

theorem swapIndex_add_four (j : Nat) : swapIndex (j + 4) = swapIndex j + 4 := by
  unfold swapIndex
  split_ifs <;> omega

theorem BGRA_getD (m : List Nat) :
    m.length % 4 = 0 → ∀ i, i < m.length → (BGRA m).getD i 0 = m.getD (swapIndex i) 0 := by
  induction m using BGRA.induct with
  | case1 b0 b1 b2 b3 rest ih =>
    intro hlen i hi
    have hlen2 : rest.length % 4 = 0 := by
      simp only [List.length_cons] at hlen
      omega
    rw [BGRA]
    match i, hi with
    | 0, _ => rfl
    | 1, _ => rfl
    | 2, _ => rfl
    | 3, _ => rfl
    | j + 4, hj =>
      have hj2 : j < rest.length := by
        simp only [List.length_cons] at hj
        omega
      rw [swapIndex_add_four]
      simp only [List.getD_cons_succ]
      exact ih hlen2 j hj2
  | case2 rest h =>
    intro hlen i hi
    match rest, h, hlen, hi with
    | [], _, _, hi => simp at hi
    | [_], _, hlen, _ => simp at hlen
    | [_, _], _, hlen, _ => simp at hlen
    | [_, _, _], _, hlen, _ => simp at hlen
    | b0 :: b1 :: b2 :: b3 :: r, h, _, _ => exact absurd rfl (h b0 b1 b2 b3 r)

/-! ## Single calls -/

/-- C3: on a released buffer, whatever the value of nUpload, preUpload panics
with the upload-after-release message and leaves the whole state (nUpload,
released, cleanedUp, the memory bytes, the trace) as it was: no increment and
no swizzle. -/
theorem preUpload_released_panics (w : World) (h : w.b.released = true) :
    (preUpload w).panic = some "x11driver: Buffer.Upload called after Buffer.Release" ∧
    (preUpload w).world = w ∧
    (preUpload w).world.b.nUpload = w.b.nUpload ∧
    (preUpload w).world.b.released = w.b.released ∧
    (preUpload w).world.b.cleanedUp = w.b.cleanedUp ∧
    (preUpload w).world.b.buf = w.b.buf ∧
    (preUpload w).world.trace = w.trace := by
  simp [preUpload, h, uploadAfterRelease]

/-- Witness of C3: a released buffer with three uploads still in flight. -/
theorem preUpload_released_panics_witness :
    (preUpload { sample with b := { sample.b with released := true, nUpload := 3 } }).panic =
      some "x11driver: Buffer.Upload called after Buffer.Release" ∧
    (preUpload { sample with b := { sample.b with released := true, nUpload := 3 } }).world =
      { sample with b := { sample.b with released := true, nUpload := 3 } } :=
  ⟨(preUpload_released_panics
      { sample with b := { sample.b with released := true, nUpload := 3 } } rfl).1,
   (preUpload_released_panics
      { sample with b := { sample.b with released := true, nUpload := 3 } } rfl).2.1⟩

theorem cleanUp_fresh (w : World) (h : w.b.cleanedUp = false) :
    cleanUp w =
      { world := { w with
          b := { w.b with
            cleanedUp := true
            s := { w.b.s with buffers := w.b.s.buffers.filter (fun k => k != w.b.xs) } }
          trace := w.trace ++ teardown w }
        panic := none } := by
  unfold cleanUp teardown
  simp only [h]
  cases hE : w.shmCloseErr <;> simp

theorem cleanUp_again (w : World) (h : w.b.cleanedUp = true) :
    cleanUp w = { world := w, panic := some cleanUpTwice } := by
  obtain ⟨⟨s, addr, buf, size, xs, n, r, c⟩, e, t⟩ := w
  simp only at h
  subst h
  simp [cleanUp]

theorem detaches_teardown (w : World) : detaches (teardown w) = 1 := by
  unfold teardown detaches
  cases w.shmCloseErr <;> simp [List.countP_cons]

theorem removals_teardown (w : World) : removals (teardown w) = 1 := by
  unfold teardown removals
  cases w.shmCloseErr <;> simp [List.countP_cons]

theorem unmaps_teardown (w : World) : unmaps (teardown w) = 1 := by
  unfold teardown unmaps
  cases w.shmCloseErr <;> simp [List.countP_cons]

theorem swizzles_teardown (w : World) : swizzles (teardown w) = 0 := by
  unfold teardown swizzles
  cases w.shmCloseErr <;> simp [List.countP_cons]

theorem unswizzles_teardown (w : World) : unswizzles (teardown w) = 0 := by
  unfold teardown unswizzles
  cases w.shmCloseErr <;> simp [List.countP_cons]

theorem detaches_append (s t : List Event) : detaches (s ++ t) = detaches s + detaches t := by
  simp [detaches]

theorem removals_append (s t : List Event) : removals (s ++ t) = removals s + removals t := by
  simp [removals]

theorem unmaps_append (s t : List Event) : unmaps (s ++ t) = unmaps s + unmaps t := by
  simp [unmaps]

theorem swizzles_append (s t : List Event) : swizzles (s ++ t) = swizzles s + swizzles t := by
  simp [swizzles]

theorem unswizzles_append (s t : List Event) :
    unswizzles (s ++ t) = unswizzles s + unswizzles t := by
  simp [unswizzles]

/-- C6: on a buffer that was not cleaned up, one call of cleanUp returns
without panic, sets cleanedUp, removes the segment key from the registry of
the screen (the other keys stay) and performs the teardown once, with exactly
one detach; a second call panics with the clean-up-twice message and changes
nothing: no further registry removal, detach or unmap. -/
theorem cleanUp_once_then_panics (w : World) (h : w.b.cleanedUp = false) :
    (cleanUp w).panic = none ∧
    (cleanUp w).world.b.cleanedUp = true ∧
    (cleanUp w).world.b.s.buffers = w.b.s.buffers.filter (fun k => k != w.b.xs) ∧
    w.b.xs ∉ (cleanUp w).world.b.s.buffers ∧
    (cleanUp w).world.trace = w.trace ++ teardown w ∧
    removals (teardown w) = 1 ∧ detaches (teardown w) = 1 ∧ unmaps (teardown w) = 1 ∧
    (cleanUp (cleanUp w).world).panic = some "x11driver: Buffer clean-up occurred twice" ∧
    (cleanUp (cleanUp w).world).world = (cleanUp w).world := by
  have h2 : (cleanUp w).world.b.cleanedUp = true := by rw [cleanUp_fresh w h]
  refine ⟨?_, h2, ?_, ?_, ?_, removals_teardown w, detaches_teardown w, unmaps_teardown w, ?_, ?_⟩
  · rw [cleanUp_fresh w h]
  · rw [cleanUp_fresh w h]
  · rw [cleanUp_fresh w h]
    simp [List.mem_filter]
  · rw [cleanUp_fresh w h]
  · rw [cleanUp_again _ h2]
    rfl
  · rw [cleanUp_again _ h2]

/-- Witness of C6: the sample buffer, registered under key 7. -/
theorem cleanUp_once_then_panics_witness :
    sample.b.cleanedUp = false ∧
    (cleanUp sample).panic = none ∧
    (cleanUp sample).world.b.s.buffers = [] ∧
    (cleanUp sample).world.trace =
      [Event.deleteBuffer 7, Event.detach 7, Event.shmClose 100] ∧
    (cleanUp (cleanUp sample).world).panic = some "x11driver: Buffer clean-up occurred twice" :=
  ⟨rfl, (cleanUp_once_then_panics sample rfl).1, by decide, by decide,
   (cleanUp_once_then_panics sample rfl).2.2.2.2.2.2.2.2.1⟩

/-- C4: on a buffer that is not released, not cleaned up and has nothing in
flight, Release returns without panic with released and cleanedUp set, and
runs the teardown once, synchronously: the trace grows by the teardown
events, so by exactly one registry removal, one detach and one unmap, and by
no swizzle or unswizzle; the memory bytes are untouched. -/
theorem Release_idle_cleans_up (w : World) (hr : w.b.released = false)
    (hc : w.b.cleanedUp = false) (hn : w.b.nUpload = 0) :
    (Release w).panic = none ∧
    (Release w).world.b.released = true ∧
    (Release w).world.b.cleanedUp = true ∧
    (Release w).world.trace = w.trace ++ teardown w ∧
    removals (Release w).world.trace = removals w.trace + 1 ∧
    detaches (Release w).world.trace = detaches w.trace + 1 ∧
    unmaps (Release w).world.trace = unmaps w.trace + 1 ∧
    swizzles (Release w).world.trace = swizzles w.trace ∧
    unswizzles (Release w).world.trace = unswizzles w.trace ∧
    (Release w).world.b.buf = w.b.buf := by
  have hR : Release w = cleanUp { w with b := { w.b with released := true } } := by
    simp [Release, hr, hn]
  have hT : teardown { w with b := { w.b with released := true } } = teardown w := rfl
  have hc1 : ({ w with b := { w.b with released := true } } : World).b.cleanedUp = false := hc
  rw [hR, cleanUp_fresh _ hc1, hT]
  simp [removals_append, detaches_append, unmaps_append, swizzles_append, unswizzles_append,
    removals_teardown, detaches_teardown, unmaps_teardown, swizzles_teardown,
    unswizzles_teardown]

/-- Witness of C4: the 4x4 buffer that was never uploaded; Release detaches
segment 9 once and the trace holds no swizzle. -/
theorem Release_idle_cleans_up_witness :
    (Release sample4x4).panic = none ∧
    (Release sample4x4).world.b.cleanedUp = true ∧
    detaches (Release sample4x4).world.trace = 1 ∧
    swizzles (Release sample4x4).world.trace = 0 ∧
    unswizzles (Release sample4x4).world.trace = 0 ∧
    (Release sample4x4).world.trace =
      [Event.deleteBuffer 9, Event.detach 9, Event.shmClose 4096] :=
  ⟨(Release_idle_cleans_up sample4x4 rfl rfl rfl).1,
   (Release_idle_cleans_up sample4x4 rfl rfl rfl).2.2.1,
   (Release_idle_cleans_up sample4x4 rfl rfl rfl).2.2.2.2.2.1,
   (Release_idle_cleans_up sample4x4 rfl rfl rfl).2.2.2.2.2.2.2.1,
   (Release_idle_cleans_up sample4x4 rfl rfl rfl).2.2.2.2.2.2.2.2.1,
   by decide⟩

/-- C7: on a buffer that is not released and whose counter is below
2^32 - 1, preUpload returns without panic, adds exactly 1 to nUpload, leaves
released and cleanedUp (and every other field but the memory) as they were,
and applies the swizzle to the memory exactly once when nUpload was 0 and not
at all when it was positive. -/
theorem preUpload_increments (w : World) (hr : w.b.released = false)
    (hn : w.b.nUpload < 2 ^ 32 - 1) :
    (preUpload w).panic = none ∧
    (preUpload w).world.b.nUpload = w.b.nUpload + 1 ∧
    (preUpload w).world.b.released = w.b.released ∧
    (preUpload w).world.b.cleanedUp = w.b.cleanedUp ∧
    (w.b.nUpload = 0 →
      (preUpload w).world.b.buf = BGRA w.b.buf ∧
      (preUpload w).world.trace = w.trace ++ [Event.swizzle]) ∧
    (0 < w.b.nUpload →
      (preUpload w).world.b.buf = w.b.buf ∧
      (preUpload w).world.trace = w.trace) := by
  have hmod : (w.b.nUpload + 1) % uint32Mod = w.b.nUpload + 1 := by
    unfold uint32Mod
    omega
  by_cases h0 : w.b.nUpload = 0
  · simp [preUpload, hr, h0, uint32Mod]
  · have hpos : 0 < w.b.nUpload := Nat.pos_of_ne_zero h0
    simp [preUpload, hr, h0, hmod]

/-- Witness of C7, first upload: the counter goes from 0 to 1 and the pixel
1, 2, 3, 4 is swizzled to 3, 2, 1, 4. -/
theorem preUpload_increments_witness :
    (preUpload sample).panic = none ∧
    (preUpload sample).world.b.nUpload = 1 ∧
    (preUpload sample).world.b.buf = [3, 2, 1, 4] ∧
    (preUpload sample).world.trace = [Event.swizzle] :=
  ⟨(preUpload_increments sample rfl (by decide)).1,
   (preUpload_increments sample rfl (by decide)).2.1,
   ((preUpload_increments sample rfl (by decide)).2.2.2.2.1 rfl).1,
   ((preUpload_increments sample rfl (by decide)).2.2.2.2.1 rfl).2⟩

/-- C8: on a buffer with nUpload = n, 1 <= n < 2^32, postUpload sets nUpload
to n - 1. If n - 1 > 0 it does nothing else and does not panic. If n - 1 = 0
and the buffer is released it does what cleanUp does on the decremented
state, and applies no swizzle: the memory bytes and the numbers of swizzles
and unswizzles are unchanged. If n - 1 = 0 and the buffer is not released it
applies the swizzle to the memory exactly once, runs no cleanup and does not
panic. -/
theorem postUpload_decrements (w : World) (h1 : 1 ≤ w.b.nUpload)
    (hlt : w.b.nUpload < 2 ^ 32) :
    (postUpload w).world.b.nUpload = w.b.nUpload - 1 ∧
    (0 < w.b.nUpload - 1 →
      postUpload w =
        { world := { w with b := { w.b with nUpload := w.b.nUpload - 1 } }, panic := none }) ∧
    (w.b.nUpload - 1 = 0 → w.b.released = true →
      postUpload w = cleanUp { w with b := { w.b with nUpload := 0 } } ∧
      (postUpload w).world.b.buf = w.b.buf ∧
      swizzles (postUpload w).world.trace = swizzles w.trace ∧
      unswizzles (postUpload w).world.trace = unswizzles w.trace) ∧
    (w.b.nUpload - 1 = 0 → w.b.released = false →
      postUpload w =
        { world := { w with
            b := { w.b with nUpload := 0, buf := BGRA w.b.buf }
            trace := w.trace ++ [Event.unswizzle] }
          panic := none }) := by
  have hmod : (uint32Mod - 1 + w.b.nUpload) % uint32Mod = w.b.nUpload - 1 := by
    unfold uint32Mod
    omega
  have hclean : ∀ v : World,
      (cleanUp v).world.b.nUpload = v.b.nUpload ∧ (cleanUp v).world.b.buf = v.b.buf ∧
      swizzles (cleanUp v).world.trace = swizzles v.trace ∧
      unswizzles (cleanUp v).world.trace = unswizzles v.trace := by
    intro v
    cases hv : v.b.cleanedUp
    · rw [cleanUp_fresh v hv]
      simp [swizzles_append, unswizzles_append, swizzles_teardown, unswizzles_teardown]
    · rw [cleanUp_again v hv]
      simp
  have hpost0 : w.b.nUpload - 1 = 0 → w.b.released = true →
      postUpload w = cleanUp { w with b := { w.b with nUpload := 0 } } := by
    intro h0 hr
    simp [postUpload, hmod, h0, hr]
  refine ⟨?_, ?_, ?_, ?_⟩
  · by_cases h0 : w.b.nUpload - 1 = 0
    · cases hr : w.b.released
      · simp [postUpload, hmod, h0, hr]
      · rw [hpost0 h0 hr, (hclean _).1, h0]
    · simp [postUpload, hmod, h0]
  · intro hpos
    have h0 : w.b.nUpload - 1 ≠ 0 := Nat.pos_iff_ne_zero.mp hpos
    simp [postUpload, hmod, h0]
  · intro h0 hr
    refine ⟨hpost0 h0 hr, ?_, ?_, ?_⟩
    · rw [hpost0 h0 hr, (hclean _).2.1]
    · rw [hpost0 h0 hr, (hclean _).2.2.1]
    · rw [hpost0 h0 hr, (hclean _).2.2.2]
  · intro h0 hr
    simp [postUpload, hmod, h0, hr]

/-- Witness of C8: the last upload of a buffer that is not released; the
counter goes from 1 to 0 and the memory is swizzled once. -/
theorem postUpload_decrements_witness :
    (postUpload (preUpload sample).world).world.b.nUpload = 0 ∧
    (postUpload (preUpload sample).world).world.b.buf = [1, 2, 3, 4] ∧
    (postUpload (preUpload sample).world).world.trace = [Event.swizzle, Event.unswizzle] :=
  ⟨(postUpload_decrements (preUpload sample).world (by decide) (by decide)).1,
   by decide, by decide⟩

/-! ## Sequences of calls: the release protocol -/

theorem removals_single_swizzle : removals [Event.swizzle] = 0 := rfl

theorem detaches_single_swizzle : detaches [Event.swizzle] = 0 := rfl

theorem unmaps_single_swizzle : unmaps [Event.swizzle] = 0 := rfl

theorem removals_single_unswizzle : removals [Event.unswizzle] = 0 := rfl

theorem detaches_single_unswizzle : detaches [Event.unswizzle] = 0 := rfl

theorem unmaps_single_unswizzle : unmaps [Event.unswizzle] = 0 := rfl

theorem CleanInv_of_fresh (w : World) (h : fresh w) : CleanInv w := by
  obtain ⟨hn, hr, hc, ht⟩ := h
  simp [CleanInv, hn, hr, hc, ht, removals, detaches, unmaps]

theorem CleanInv_cleanUp (w : World) (hc : w.b.cleanedUp = false)
    (hr : w.b.released = true) (hn : w.b.nUpload = 0)
    (h1 : removals w.trace = 0) (h2 : detaches w.trace = 0) (h3 : unmaps w.trace = 0) :
    CleanInv (cleanUp w).world := by
  rw [cleanUp_fresh w hc]
  simp [CleanInv, hr, hn, removals_append, detaches_append, unmaps_append, h1, h2, h3,
    removals_teardown, detaches_teardown, unmaps_teardown]

theorem CleanInv_preUpload (w : World) (h : CleanInv w) : CleanInv (preUpload w).world := by
  obtain ⟨h0, h1, h2, h3⟩ := h
  cases hr : w.b.released
  · have hc : w.b.cleanedUp = false := by
      cases hcu : w.b.cleanedUp
      · rfl
      · rw [hcu] at h0
        simp [hr] at h0
    rw [hc] at h1 h2 h3
    by_cases hn : w.b.nUpload = 0
    · simp [CleanInv, preUpload, hr, hn, hc, removals_append, detaches_append, unmaps_append,
        h1, h2, h3, removals_single_swizzle, detaches_single_swizzle, unmaps_single_swizzle]
    · simp [CleanInv, preUpload, hr, hn, hc, h1, h2, h3]
  · have hw : (preUpload w).world = w := by simp [preUpload, hr]
    rw [hw]
    exact ⟨h0, h1, h2, h3⟩

theorem CleanInv_postUpload (w : World) (h : CleanInv w) (hpos : 0 < w.b.nUpload) :
    CleanInv (postUpload w).world := by
  obtain ⟨h0, h1, h2, h3⟩ := h
  have hc : w.b.cleanedUp = false := by
    cases hcu : w.b.cleanedUp
    · rfl
    · rw [hcu] at h0
      have := (h0.mp rfl).2
      omega
  rw [hc] at h1 h2 h3
  simp only [if_false, Bool.false_eq_true] at h1 h2 h3
  by_cases hm : (uint32Mod - 1 + w.b.nUpload) % uint32Mod = 0
  · cases hr : w.b.released
    · simp [CleanInv, postUpload, hm, hr, hc, removals_append, detaches_append, unmaps_append,
        h1, h2, h3, removals_single_unswizzle, detaches_single_unswizzle,
        unmaps_single_unswizzle]
    · have hp : postUpload w =
          cleanUp { w with b := { w.b with nUpload := (uint32Mod - 1 + w.b.nUpload) % uint32Mod } } := by
        simp [postUpload, hm, hr]
      rw [hp]
      exact CleanInv_cleanUp _ hc hr hm h1 h2 h3
  · simp [CleanInv, postUpload, hm, hc, h1, h2, h3]

theorem CleanInv_Release (w : World) (h : CleanInv w) : CleanInv (Release w).world := by
  obtain ⟨h0, h1, h2, h3⟩ := h
  cases hr : w.b.released
  · have hc : w.b.cleanedUp = false := by
      cases hcu : w.b.cleanedUp
      · rfl
      · rw [hcu] at h0
        simp [hr] at h0
    rw [hc] at h1 h2 h3
    simp only [if_false, Bool.false_eq_true] at h1 h2 h3
    by_cases hn : w.b.nUpload = 0
    · have hp : Release w = cleanUp { w with b := { w.b with released := true } } := by
        simp [Release, hr, hn]
      rw [hp]
      exact CleanInv_cleanUp _ hc rfl hn h1 h2 h3
    · simp [CleanInv, Release, hr, hn, hc, h1, h2, h3]
  · have hw : (Release w).world = w := by
      obtain ⟨⟨s, addr, buf, size, xs, n, r, c⟩, e, t⟩ := w
      simp only at hr
      subst hr
      simp [Release]
    rw [hw]
    exact ⟨h0, h1, h2, h3⟩

theorem CleanInv_exec (cs : List Call) :
    ∀ w : World, CleanInv w → admissible cs w = true → CleanInv (exec cs w) := by
  induction cs with
  | nil => intro w h _; exact h
  | cons c cs ih =>
    intro w h ha
    cases c with
    | preUpload =>
      simp only [admissible] at ha
      exact ih _ (CleanInv_preUpload w h) ha
    | postUpload =>
      simp only [admissible, Bool.and_eq_true, decide_eq_true_eq] at ha
      exact ih _ (CleanInv_postUpload w h ha.1) ha.2
    | Release =>
      simp only [admissible] at ha
      exact ih _ (CleanInv_Release w h) ha

/-- C2: in every state reached from a freshly constructed buffer by a sequence
of preUpload, postUpload and Release calls in which postUpload is only called
while nUpload > 0, cleanedUp is set if and only if released is set and
nUpload is 0, and each part of the teardown body of cleanUp (registry
removal, segment detach, unmap) has run at most once: once if cleanedUp is
set, never otherwise. -/
theorem cleanup_iff_released_idle (w0 : World) (cs : List Call) (hf : fresh w0)
    (ha : admissible cs w0 = true) :
    ((exec cs w0).b.cleanedUp = true ↔
      ((exec cs w0).b.released = true ∧ (exec cs w0).b.nUpload = 0)) ∧
    removals (exec cs w0).trace ≤ 1 ∧
    detaches (exec cs w0).trace ≤ 1 ∧
    unmaps (exec cs w0).trace ≤ 1 ∧
    removals (exec cs w0).trace = (if (exec cs w0).b.cleanedUp then 1 else 0) ∧
    detaches (exec cs w0).trace = (if (exec cs w0).b.cleanedUp then 1 else 0) ∧
    unmaps (exec cs w0).trace = (if (exec cs w0).b.cleanedUp then 1 else 0) := by
  obtain ⟨h0, h1, h2, h3⟩ := CleanInv_exec cs w0 (CleanInv_of_fresh w0 hf) ha
  refine ⟨h0, ?_, ?_, ?_, h1, h2, h3⟩
  · rw [h1]; split <;> omega
  · rw [h2]; split <;> omega
  · rw [h3]; split <;> omega

/-- Witness of C2: upload, upload, release, completion, completion, release
again; clean-up has happened and the segment was detached once. -/
theorem cleanup_iff_released_idle_witness :
    fresh sample ∧
    admissible [Call.preUpload, Call.preUpload, Call.Release, Call.postUpload,
      Call.postUpload, Call.Release] sample = true ∧
    (exec [Call.preUpload, Call.preUpload, Call.Release, Call.postUpload,
      Call.postUpload, Call.Release] sample).b.cleanedUp = true ∧
    detaches (exec [Call.preUpload, Call.preUpload, Call.Release, Call.postUpload,
      Call.postUpload, Call.Release] sample).trace ≤ 1 :=
  ⟨by decide, by decide, by decide,
   (cleanup_iff_released_idle sample [Call.preUpload, Call.preUpload, Call.Release,
      Call.postUpload, Call.postUpload, Call.Release] (by decide) (by decide)).2.2.1⟩

/-! ## Sequences of calls: the byte order of the memory -/

theorem OrderInv_of_fresh (w : World) (h : fresh w) : OrderInv w.b.buf w := by
  obtain ⟨hn, _, _, _⟩ := h
  refine ⟨?_, fun _ _ => rfl, fun hpos => ?_⟩
  · rw [hn]; decide
  · omega

theorem not_cleanedUp_of_live (w : World) (h : CleanInv w) (hr : w.b.released = false) :
    w.b.cleanedUp = false := by
  cases hcu : w.b.cleanedUp
  · rfl
  · have := (h.1.mp hcu).1
    rw [hr] at this
    exact absurd this (by decide)

theorem uint32Mod_pos : 0 < uint32Mod := by decide

theorem one_lt_uint32Mod : 1 < uint32Mod := by decide

theorem preUpload_first (w : World) (hr : w.b.released = false) (hn : w.b.nUpload = 0) :
    preUpload w =
      { world := { w with
          b := { w.b with nUpload := 1, buf := BGRA w.b.buf }
          trace := w.trace ++ [Event.swizzle] }
        panic := none } := by
  simp [preUpload, hr, hn, uint32Mod]

theorem preUpload_more (w : World) (hr : w.b.released = false) (hn : 0 < w.b.nUpload) :
    preUpload w =
      { world := { w with b := { w.b with nUpload := (w.b.nUpload + 1) % uint32Mod } }
        panic := none } := by
  have hn0 : w.b.nUpload ≠ 0 := Nat.pos_iff_ne_zero.mp hn
  simp [preUpload, hr, hn0]

theorem preUpload_released (w : World) (hr : w.b.released = true) :
    preUpload w = { world := w, panic := some uploadAfterRelease } := by
  simp [preUpload, hr]

theorem postUpload_more (w : World)
    (hm : (uint32Mod - 1 + w.b.nUpload) % uint32Mod ≠ 0) :
    postUpload w =
      { world := { w with
          b := { w.b with nUpload := (uint32Mod - 1 + w.b.nUpload) % uint32Mod } }
        panic := none } := by
  simp [postUpload, hm]

theorem postUpload_last_released (w : World)
    (hm : (uint32Mod - 1 + w.b.nUpload) % uint32Mod = 0) (hr : w.b.released = true) :
    postUpload w = cleanUp { w with b := { w.b with nUpload := 0 } } := by
  simp [postUpload, hm, hr]

theorem postUpload_last_live (w : World)
    (hm : (uint32Mod - 1 + w.b.nUpload) % uint32Mod = 0) (hr : w.b.released = false) :
    postUpload w =
      { world := { w with
          b := { w.b with nUpload := 0, buf := BGRA w.b.buf }
          trace := w.trace ++ [Event.unswizzle] }
        panic := none } := by
  simp [postUpload, hm, hr]

theorem dec_mod (n : Nat) (h1 : 0 < n) (hlt : n < uint32Mod) :
    (uint32Mod - 1 + n) % uint32Mod = n - 1 := by
  unfold uint32Mod at hlt ⊢
  omega

theorem inc_mod (n : Nat) (hlt : n < uint32Mod - 1) : (n + 1) % uint32Mod = n + 1 := by
  unfold uint32Mod at hlt ⊢
  omega

theorem OrderInv_cleanUp (m0 : List Nat) (v : World) (hlt : v.b.nUpload < uint32Mod)
    (h2 : 0 < v.b.nUpload → v.b.buf = BGRA m0) : OrderInv m0 (cleanUp v).world := by
  cases hcu : v.b.cleanedUp
  · rw [cleanUp_fresh v hcu]
    exact ⟨hlt, fun _ hcf => absurd hcf (by simp), h2⟩
  · rw [cleanUp_again v hcu]
    exact ⟨hlt, fun _ hcf => absurd (hcu.symm.trans hcf) (by simp), h2⟩

theorem OrderInv_preUpload (m0 : List Nat) (w : World) (h : OrderInv m0 w) (hc : CleanInv w)
    (hg : w.b.nUpload < uint32Mod - 1) : OrderInv m0 (preUpload w).world := by
  obtain ⟨h0, h1, h2⟩ := h
  cases hr : w.b.released
  · have hcu := not_cleanedUp_of_live w hc hr
    by_cases hn : w.b.nUpload = 0
    · rw [preUpload_first w hr hn]
      refine ⟨one_lt_uint32Mod, fun h => absurd h (by simp), fun _ => ?_⟩
      show BGRA w.b.buf = BGRA m0
      rw [h1 hn hcu]
    · have hpos : 0 < w.b.nUpload := Nat.pos_of_ne_zero hn
      rw [preUpload_more w hr hpos]
      refine ⟨Nat.mod_lt _ uint32Mod_pos, fun h => ?_, fun _ => h2 hpos⟩
      have h3 : (w.b.nUpload + 1) % uint32Mod = 0 := h
      rw [inc_mod _ hg] at h3
      omega
  · rw [preUpload_released w hr]
    exact ⟨h0, h1, h2⟩

theorem OrderInv_postUpload (m0 : List Nat) (w : World) (h : OrderInv m0 w)
    (hpos : 0 < w.b.nUpload) : OrderInv m0 (postUpload w).world := by
  obtain ⟨h0, _, h2⟩ := h
  have hb := h2 hpos
  have hmod := dec_mod _ hpos h0
  by_cases hm : (uint32Mod - 1 + w.b.nUpload) % uint32Mod = 0
  · cases hr : w.b.released
    · rw [postUpload_last_live w hm hr]
      refine ⟨uint32Mod_pos, fun _ _ => ?_, fun h => absurd h (by simp)⟩
      show BGRA w.b.buf = m0
      rw [hb, BGRA_BGRA]
    · rw [postUpload_last_released w hm hr]
      exact OrderInv_cleanUp m0 _ uint32Mod_pos (fun h => absurd h (by simp))
  · rw [postUpload_more w hm]
    exact ⟨Nat.mod_lt _ uint32Mod_pos, fun h => absurd h hm, fun _ => hb⟩

theorem OrderInv_Release (m0 : List Nat) (w : World) (h : OrderInv m0 w) :
    OrderInv m0 (Release w).world := by
  obtain ⟨h0, h1, h2⟩ := h
  by_cases hd : (!w.b.released && w.b.nUpload == 0) = true
  · have hp : Release w = cleanUp { w with b := { w.b with released := true } } := by
      simp only [Release, hd, if_true]
    rw [hp]
    exact OrderInv_cleanUp m0 _ h0 h2
  · have hp : Release w =
        { world := { w with b := { w.b with released := true } }, panic := none } := by
      simp only [Release, hd]
      rfl
    rw [hp]
    exact ⟨h0, h1, h2⟩

theorem OrderInv_exec (m0 : List Nat) (cs : List Call) :
    ∀ w : World, OrderInv m0 w → CleanInv w → admissibleBelow cs w = true →
      OrderInv m0 (exec cs w) := by
  induction cs with
  | nil => intro w h _ _; exact h
  | cons c cs ih =>
    intro w h hc ha
    cases c with
    | preUpload =>
      simp only [admissibleBelow, Bool.and_eq_true, decide_eq_true_eq] at ha
      exact ih _ (OrderInv_preUpload m0 w h hc ha.1) (CleanInv_preUpload w hc) ha.2
    | postUpload =>
      simp only [admissibleBelow, Bool.and_eq_true, decide_eq_true_eq] at ha
      exact ih _ (OrderInv_postUpload m0 w h ha.1) (CleanInv_postUpload w hc ha.1) ha.2
    | Release =>
      simp only [admissibleBelow] at ha
      exact ih _ (OrderInv_Release m0 w h) (CleanInv_Release w hc) ha

/-- C1, as amended: in every state reached from a freshly constructed buffer
by a sequence of preUpload, postUpload and Release calls in which postUpload
is only called while nUpload > 0 and preUpload only while nUpload < 2^32 - 1,
the memory is in transfer order (the swizzled initial content) whenever
nUpload > 0, and in native order (the initial content) whenever nUpload = 0
and clean-up has not happened. -/
theorem byte_order_invariant (w0 : World) (cs : List Call) (hf : fresh w0)
    (ha : admissibleBelow cs w0 = true) :
    ((exec cs w0).b.nUpload = 0 → (exec cs w0).b.cleanedUp = false →
      (exec cs w0).b.buf = w0.b.buf) ∧
    (0 < (exec cs w0).b.nUpload → (exec cs w0).b.buf = BGRA w0.b.buf) :=
  (OrderInv_exec w0.b.buf cs w0 (OrderInv_of_fresh w0 hf) (CleanInv_of_fresh w0 hf) ha).2

/-- Witness of C1, as amended: two overlapping uploads of the sample buffer;
in between the memory is swizzled, afterwards it is back in native order. -/
theorem byte_order_invariant_witness :
    fresh sample ∧
    admissibleBelow [Call.preUpload, Call.preUpload, Call.postUpload] sample = true ∧
    (exec [Call.preUpload, Call.preUpload, Call.postUpload] sample).b.nUpload = 1 ∧
    (exec [Call.preUpload, Call.preUpload, Call.postUpload] sample).b.buf = BGRA sample.b.buf :=
  ⟨by decide, by decide, by decide,
   (byte_order_invariant sample [Call.preUpload, Call.preUpload, Call.postUpload]
      (by decide) (by decide)).2 (by decide)⟩

/-- C1 fails as stated: after upload, release, completion of the sample
buffer nUpload is 0, yet the memory is still swizzled (3, 2, 1, 4 instead of
1, 2, 3, 4), since a postUpload that finds the buffer released runs cleanUp
and not the swizzle. -/
theorem byte_order_invariant_fails_after_release :
    ¬ (∀ (w0 : World) (cs : List Call), fresh w0 → admissible cs w0 = true →
        ((exec cs w0).b.nUpload = 0 → (exec cs w0).b.buf = w0.b.buf) ∧
        (0 < (exec cs w0).b.nUpload → (exec cs w0).b.buf = BGRA w0.b.buf)) := by
  intro h
  have h1 := (h sample [Call.preUpload, Call.Release, Call.postUpload]
    (by decide) (by decide)).1 (by decide)
  exact absurd h1 (by decide)

/-! ## Deferred clean-up -/

theorem one_dec_mod : (uint32Mod - 1 + 1) % uint32Mod = 0 := by decide

theorem Release_inflight (w : World) (hr : w.b.released = false) (hpos : 0 < w.b.nUpload) :
    Release w = { world := { w with b := { w.b with released := true } }, panic := none } := by
  have hn0 : w.b.nUpload ≠ 0 := Nat.pos_iff_ne_zero.mp hpos
  simp [Release, hr, hn0]

theorem run_postUpload_more (k : Nat) :
    ∀ v : World, k < v.b.nUpload → v.b.nUpload < uint32Mod →
      run (List.replicate k Call.postUpload) v =
        { world := { v with b := { v.b with nUpload := v.b.nUpload - k } }, panic := none } := by
  induction k with
  | zero => intro v _ _; rfl
  | succ k ih =>
    intro v hk hlt
    have hpos : 0 < v.b.nUpload := by omega
    have hmod := dec_mod _ hpos hlt
    have hm : (uint32Mod - 1 + v.b.nUpload) % uint32Mod ≠ 0 := by
      rw [hmod]; omega
    have hstep : step Call.postUpload v =
        { world := { v with b := { v.b with nUpload := v.b.nUpload - 1 } }, panic := none } := by
      show postUpload v = _
      rw [postUpload_more v hm, hmod]
    rw [List.replicate_succ, run, hstep]
    simp only
    rw [ih _ (by show k < v.b.nUpload - 1; omega) (by show v.b.nUpload - 1 < uint32Mod; omega)]
    have e : v.b.nUpload - 1 - k = v.b.nUpload - (k + 1) := by omega
    simp only [e]

theorem run_singleton_ok (c : Call) (w v : World)
    (h : step c w = { world := v, panic := none }) :
    run [c] w = { world := v, panic := none } := by
  simp [run, h]

theorem run_append_of_ok (cs ds : List Call) :
    ∀ w v : World, run cs w = { world := v, panic := none } →
      run (cs ++ ds) w = run ds v := by
  induction cs with
  | nil =>
    intro w v h
    simp only [run, Outcome.mk.injEq, and_true] at h
    subst h
    rfl
  | cons c cs ih =>
    intro w v h
    rw [List.cons_append, run]
    rw [run] at h
    cases hp : (step c w).panic with
    | none =>
      rw [hp] at h
      simp only at h ⊢
      exact ih _ _ h
    | some msg =>
      rw [hp] at h
      simp at h

/-- C5: on a buffer that is not released, not cleaned up and has n uploads in
flight, 0 < n < 2^32, Release returns without panic having set released and
nothing else: no clean-up runs and the trace is unchanged. Of the n
postUpload calls that follow, the first k, for every k < n, only count
nUpload down to n - k, still without clean-up; the n-th brings nUpload to 0
and runs the teardown once. No call panics. -/
theorem Release_inflight_defers (w : World) (hr : w.b.released = false)
    (hc : w.b.cleanedUp = false) (hpos : 0 < w.b.nUpload) (hlt : w.b.nUpload < 2 ^ 32) :
    Release w = { world := { w with b := { w.b with released := true } }, panic := none } ∧
    (∀ k, k < w.b.nUpload →
      run (List.replicate k Call.postUpload) (Release w).world =
        { world := { w with b := { w.b with released := true, nUpload := w.b.nUpload - k } }
          panic := none }) ∧
    run (List.replicate w.b.nUpload Call.postUpload) (Release w).world =
      { world := { w with
          b := { w.b with
            released := true
            nUpload := 0
            cleanedUp := true
            s := { w.b.s with buffers := w.b.s.buffers.filter (fun k => k != w.b.xs) } }
          trace := w.trace ++ teardown w }
        panic := none } ∧
    detaches (teardown w) = 1 := by
  have hlt2 : w.b.nUpload < uint32Mod := by
    unfold uint32Mod
    omega
  have hR := Release_inflight w hr hpos
  have hk : ∀ k, k < w.b.nUpload →
      run (List.replicate k Call.postUpload) (Release w).world =
        { world := { w with b := { w.b with released := true, nUpload := w.b.nUpload - k } }
          panic := none } := by
    intro k hk
    rw [hR]
    exact run_postUpload_more k _ hk hlt2
  refine ⟨hR, hk, ?_, detaches_teardown w⟩
  obtain ⟨n, hn⟩ : ∃ n, w.b.nUpload = n + 1 := ⟨w.b.nUpload - 1, by omega⟩
  have h1 := hk n (by omega)
  have e1 : w.b.nUpload - n = 1 := by omega
  rw [e1] at h1
  rw [hn, List.replicate_succ', run_append_of_ok _ _ _ _ h1]
  apply run_singleton_ok
  show postUpload { w with b := { w.b with released := true, nUpload := 1 } } = _
  rw [postUpload_last_released _ one_dec_mod rfl]
  exact cleanUp_fresh { w with b := { w.b with released := true, nUpload := 0 } } hc

/-- Witness of C5: begin, begin, release, end, end on the sample buffer. The
release and the first end run no clean-up; the second end does, once. -/
theorem Release_inflight_defers_witness :
    (Release (exec [Call.preUpload, Call.preUpload] sample)).world.b.cleanedUp = false ∧
    (Release (exec [Call.preUpload, Call.preUpload] sample)).world.trace = [Event.swizzle] ∧
    (run [Call.postUpload]
      (Release (exec [Call.preUpload, Call.preUpload] sample)).world).world.trace =
        [Event.swizzle] ∧
    (run [Call.postUpload, Call.postUpload]
      (Release (exec [Call.preUpload, Call.preUpload] sample)).world).world.trace =
        [Event.swizzle, Event.deleteBuffer 7, Event.detach 7, Event.shmClose 100] ∧
    (run [Call.postUpload, Call.postUpload]
      (Release (exec [Call.preUpload, Call.preUpload] sample)).world).panic = none ∧
    (Release (exec [Call.preUpload, Call.preUpload] sample)).panic = none :=
  ⟨by decide, by decide, by decide, by decide, by decide,
   congrArg Outcome.panic
     (Release_inflight_defers (exec [Call.preUpload, Call.preUpload] sample)
       (by decide) (by decide) (by decide) (by decide)).1⟩

/-! ## Nested uploads: swizzles and unswizzles -/

theorem swizzles_single_swizzle : swizzles [Event.swizzle] = 1 := rfl

theorem unswizzles_single_swizzle : unswizzles [Event.swizzle] = 0 := rfl

theorem swizzles_single_unswizzle : swizzles [Event.unswizzle] = 0 := rfl

theorem unswizzles_single_unswizzle : unswizzles [Event.unswizzle] = 1 := rfl

theorem NestInv_of_fresh (w : World) (h : fresh w) : NestInv 0 w := by
  obtain ⟨hn, hr, _, ht⟩ := h
  refine ⟨hr, hn, uint32Mod_pos, ?_⟩
  rw [ht]
  rfl

theorem NestInv_preUpload (d : Nat) (w : World) (h : NestInv d w) (hd : d + 1 < uint32Mod) :
    NestInv (d + 1) (preUpload w).world ∧
    (preUpload w).panic = none ∧
    (preUpload w).world.trace =
      w.trace ++ (if w.b.nUpload = 0 then [Event.swizzle] else []) := by
  obtain ⟨hr, hn, _, hs⟩ := h
  by_cases h0 : w.b.nUpload = 0
  · have hd0 : d = 0 := by omega
    rw [preUpload_first w hr h0, if_pos h0]
    refine ⟨⟨hr, ?_, hd, ?_⟩, rfl, rfl⟩
    · show 1 = d + 1
      omega
    · show swizzles (w.trace ++ [Event.swizzle]) =
        unswizzles (w.trace ++ [Event.swizzle]) + (if d + 1 = 0 then 0 else 1)
      rw [swizzles_append, unswizzles_append, swizzles_single_swizzle,
        unswizzles_single_swizzle, hs, if_pos hd0, if_neg (Nat.succ_ne_zero d)]
  · have hpos : 0 < w.b.nUpload := Nat.pos_of_ne_zero h0
    have hd0 : d ≠ 0 := by omega
    rw [preUpload_more w hr hpos, if_neg h0, inc_mod _ (by omega)]
    refine ⟨⟨hr, ?_, hd, ?_⟩, rfl, (List.append_nil _).symm⟩
    · show w.b.nUpload + 1 = d + 1
      omega
    · show swizzles w.trace = unswizzles w.trace + (if d + 1 = 0 then 0 else 1)
      rw [hs, if_neg hd0, if_neg (Nat.succ_ne_zero d)]

theorem NestInv_postUpload (d : Nat) (w : World) (h : NestInv (d + 1) w) :
    NestInv d (postUpload w).world ∧
    (postUpload w).panic = none ∧
    (postUpload w).world.trace =
      w.trace ++ (if (postUpload w).world.b.nUpload = 0 then [Event.unswizzle] else []) := by
  obtain ⟨hr, hn, hlt, hs⟩ := h
  have hmod : (uint32Mod - 1 + w.b.nUpload) % uint32Mod = d := by
    rw [dec_mod _ (by omega) (by omega)]
    omega
  have hdlt : d < uint32Mod := by omega
  rw [if_neg (Nat.succ_ne_zero d)] at hs
  by_cases h0 : d = 0
  · have hm : (uint32Mod - 1 + w.b.nUpload) % uint32Mod = 0 := by omega
    rw [postUpload_last_live w hm hr]
    refine ⟨⟨hr, h0.symm, hdlt, ?_⟩, rfl, ?_⟩
    · show swizzles (w.trace ++ [Event.unswizzle]) =
        unswizzles (w.trace ++ [Event.unswizzle]) + (if d = 0 then 0 else 1)
      rw [swizzles_append, unswizzles_append, swizzles_single_unswizzle,
        unswizzles_single_unswizzle, hs, if_pos h0]
    · show w.trace ++ [Event.unswizzle] =
        w.trace ++ (if (0 : Nat) = 0 then [Event.unswizzle] else [])
      rfl
  · have hm : (uint32Mod - 1 + w.b.nUpload) % uint32Mod ≠ 0 := by omega
    rw [postUpload_more w hm]
    refine ⟨⟨hr, hmod, hdlt, ?_⟩, rfl, ?_⟩
    · show swizzles w.trace = unswizzles w.trace + (if d = 0 then 0 else 1)
      rw [hs, if_neg h0]
    · show w.trace =
        w.trace ++
          (if (uint32Mod - 1 + w.b.nUpload) % uint32Mod = 0 then [Event.unswizzle] else [])
      rw [if_neg hm, List.append_nil]

theorem NestInv_exec (rest : List Call) (p : List Call) :
    ∀ (d : Nat) (w : World), NestInv d w → nestedBelow d (p ++ rest) = true →
      ∃ e, NestInv e (exec p w) ∧ nestedBelow e rest = true := by
  induction p with
  | nil => intro d w h hn; exact ⟨d, h, hn⟩
  | cons c p ih =>
    intro d w h hn
    cases c with
    | preUpload =>
      simp only [List.cons_append, nestedBelow, Bool.and_eq_true, decide_eq_true_eq] at hn
      exact ih (d + 1) _ (NestInv_preUpload d w h hn.1).1 hn.2
    | postUpload =>
      cases d with
      | zero => simp [nestedBelow] at hn
      | succ d =>
        simp only [List.cons_append, nestedBelow] at hn
        exact ih d _ (NestInv_postUpload d w h).1 hn
    | Release => simp [nestedBelow] at hn

/-- C9, as amended: take a sequence of preUpload and postUpload calls on a
fresh buffer in which every initial part has at least as many preUpload as
postUpload calls and fewer than 2^32 more. After every initial part p of it,
the unswizzles never outnumber the swizzles, the swizzles are at most one
more, and they are equally many whenever nUpload = 0. The call that follows p
does not panic and extends the trace by exactly one swizzle if it is a
preUpload that finds nUpload = 0, by exactly one unswizzle if it is a
postUpload that brings nUpload to 0, and by nothing otherwise. -/
theorem swizzle_bracketing (w0 : World) (p rest : List Call) (hf : fresh w0)
    (hn : nestedBelow 0 (p ++ rest) = true) :
    unswizzles (exec p w0).trace ≤ swizzles (exec p w0).trace ∧
    swizzles (exec p w0).trace ≤ unswizzles (exec p w0).trace + 1 ∧
    ((exec p w0).b.nUpload = 0 → swizzles (exec p w0).trace = unswizzles (exec p w0).trace) ∧
    (∀ rest1, rest = Call.preUpload :: rest1 →
      (preUpload (exec p w0)).panic = none ∧
      (preUpload (exec p w0)).world.trace =
        (exec p w0).trace ++ (if (exec p w0).b.nUpload = 0 then [Event.swizzle] else [])) ∧
    (∀ rest1, rest = Call.postUpload :: rest1 →
      (postUpload (exec p w0)).panic = none ∧
      (postUpload (exec p w0)).world.trace =
        (exec p w0).trace ++
          (if (postUpload (exec p w0)).world.b.nUpload = 0 then [Event.unswizzle] else [])) := by
  obtain ⟨e, hI, hrest⟩ := NestInv_exec rest p 0 w0 (NestInv_of_fresh w0 hf) hn
  have hs := hI.2.2.2
  have hne := hI.2.1
  refine ⟨?_, ?_, ?_, ?_, ?_⟩
  · rw [hs]; omega
  · rw [hs]; split <;> omega
  · intro h0
    rw [hs, if_pos (by omega)]
    rfl
  · intro rest1 hr1
    rw [hr1] at hrest
    simp only [nestedBelow, Bool.and_eq_true, decide_eq_true_eq] at hrest
    exact (NestInv_preUpload e _ hI hrest.1).2
  · intro rest1 hr1
    rw [hr1] at hrest
    cases e with
    | zero => simp [nestedBelow] at hrest
    | succ e => exact (NestInv_postUpload e _ hI).2

/-- Witness of C9, as amended: begin, begin, end, end on the sample buffer
performs one swizzle, at the first begin, and one unswizzle, at the second
end. -/
theorem swizzle_bracketing_witness :
    (exec [Call.preUpload] sample).trace = [Event.swizzle] ∧
    (exec [Call.preUpload, Call.preUpload] sample).trace = [Event.swizzle] ∧
    (exec [Call.preUpload, Call.preUpload, Call.postUpload] sample).trace = [Event.swizzle] ∧
    (exec [Call.preUpload, Call.preUpload, Call.postUpload, Call.postUpload] sample).trace =
      [Event.swizzle, Event.unswizzle] ∧
    swizzles (exec [Call.preUpload, Call.preUpload, Call.postUpload, Call.postUpload]
      sample).trace =
    unswizzles (exec [Call.preUpload, Call.preUpload, Call.postUpload, Call.postUpload]
      sample).trace :=
  ⟨by decide, by decide, by decide, by decide,
   (swizzle_bracketing sample
      [Call.preUpload, Call.preUpload, Call.postUpload, Call.postUpload] []
      (by decide) (by decide)).2.2.1 (by decide)⟩

/-! ## The counter wraps after `2 ^ 32` uploads -/

theorem exec_append (cs ds : List Call) :
    ∀ w : World, exec (cs ++ ds) w = exec ds (exec cs w) := by
  induction cs with
  | nil => intro w; rfl
  | cons c cs ih => intro w; exact ih _

theorem exec_replicate_preUpload (k : Nat) :
    ∀ v : World, v.b.released = false → 0 < v.b.nUpload → v.b.nUpload + k < uint32Mod →
      exec (List.replicate k Call.preUpload) v =
        { v with b := { v.b with nUpload := v.b.nUpload + k } } := by
  induction k with
  | zero => intro v _ _ _; rfl
  | succ k ih =>
    intro v hr hpos hlt
    rw [List.replicate_succ]
    show exec (List.replicate k Call.preUpload) (preUpload v).world = _
    rw [preUpload_more v hr hpos, inc_mod _ (by omega)]
    have key := ih { v with b := { v.b with nUpload := v.b.nUpload + 1 } } hr
      (by show 0 < v.b.nUpload + 1; omega)
      (by show v.b.nUpload + 1 + k < uint32Mod; omega)
    have e : v.b.nUpload + 1 + k = v.b.nUpload + (k + 1) := by omega
    refine key.trans ?_
    show ({ v with b := { v.b with nUpload := v.b.nUpload + 1 + k } } : World) = _
    rw [e]

theorem nested_replicate_preUpload (k : Nat) :
    ∀ (d : Nat) (cs : List Call),
      nested d (List.replicate k Call.preUpload ++ cs) = nested (d + k) cs := by
  induction k with
  | zero => intro d cs; rfl
  | succ k ih =>
    intro d cs
    rw [List.replicate_succ, List.cons_append, nested, ih]
    have e : d + 1 + k = d + (k + 1) := by omega
    rw [e]

theorem nested_wrapSeq : nested 0 wrapSeq = true := by
  rw [wrapSeq, nested, nested_replicate_preUpload, nested, nested]

theorem exec_wrapSeq :
    exec wrapSeq sample =
      { sample with
        b := { sample.b with nUpload := 0, buf := [3, 2, 1, 4] }
        trace := [Event.swizzle] } := by
  have h1 : (step Call.preUpload sample).world =
      { sample with
        b := { sample.b with nUpload := 1, buf := [3, 2, 1, 4] }
        trace := [Event.swizzle] } := by decide
  rw [wrapSeq, exec, h1, exec_append,
    exec_replicate_preUpload 4294967294 _ rfl (by decide) (by decide)]
  decide

/-- C9 fails as stated: a sequence of 2^32 preUpload calls is nested; after
it the counter of the sample buffer has wrapped to 0 while one swizzle and no
unswizzle have been performed. -/
theorem swizzle_bracketing_fails_at_wrap :
    ¬ (∀ (w0 : World) (cs : List Call), fresh w0 → nested 0 cs = true →
        unswizzles (exec cs w0).trace ≤ swizzles (exec cs w0).trace ∧
        swizzles (exec cs w0).trace ≤ unswizzles (exec cs w0).trace + 1 ∧
        ((exec cs w0).b.nUpload = 0 →
          swizzles (exec cs w0).trace = unswizzles (exec cs w0).trace)) := by
  intro h
  have h1 := (h sample wrapSeq (by decide) nested_wrapSeq).2.2
  rw [exec_wrapSeq] at h1
  exact absurd (h1 rfl) (by decide)

/-! ## Balanced uploads restore the memory -/

theorem inc_mod_mod (d : Nat) : (d % uint32Mod + 1) % uint32Mod = (d + 1) % uint32Mod := by
  unfold uint32Mod
  omega

theorem dec_mod_mod (d : Nat) :
    (uint32Mod - 1 + (d + 1) % uint32Mod) % uint32Mod = d % uint32Mod := by
  unfold uint32Mod
  omega

theorem blocks_succ_of_mod_zero (d : Nat) (h : d % uint32Mod = 0) :
    (d + 1 + (uint32Mod - 1)) / uint32Mod = (d + (uint32Mod - 1)) / uint32Mod + 1 := by
  unfold uint32Mod at h ⊢
  omega

theorem blocks_succ_of_mod_pos (d : Nat) (h : d % uint32Mod ≠ 0) :
    (d + 1 + (uint32Mod - 1)) / uint32Mod = (d + (uint32Mod - 1)) / uint32Mod := by
  unfold uint32Mod at h ⊢
  omega

theorem flip_parity (a : Nat) (m0 : List Nat) :
    BGRA (if a % 2 = 0 then m0 else BGRA m0) = (if (a + 1) % 2 = 0 then m0 else BGRA m0) := by
  rcases Nat.mod_two_eq_zero_or_one a with h | h
  · have h1 : (a + 1) % 2 ≠ 0 := by omega
    rw [if_pos h, if_neg h1]
  · have h0 : a % 2 ≠ 0 := by omega
    have h1 : (a + 1) % 2 = 0 := by omega
    rw [if_neg h0, if_pos h1, BGRA_BGRA]

theorem UpInv_preUpload (d : Nat) (m0 : List Nat) (w : World) (h : UpInv d m0 w) :
    UpInv (d + 1) m0 (preUpload w).world := by
  obtain ⟨hr, hn, hb⟩ := h
  by_cases h0 : w.b.nUpload = 0
  · have hd : d % uint32Mod = 0 := by omega
    rw [preUpload_first w hr h0]
    refine ⟨hr, ?_, ?_⟩
    · show 1 = (d + 1) % uint32Mod
      rw [← inc_mod_mod, hd]
      decide
    · show BGRA w.b.buf = _
      rw [hb, blocks_succ_of_mod_zero d hd, flip_parity]
  · have hpos : 0 < w.b.nUpload := Nat.pos_of_ne_zero h0
    have hd : d % uint32Mod ≠ 0 := by omega
    rw [preUpload_more w hr hpos]
    refine ⟨hr, ?_, ?_⟩
    · show (w.b.nUpload + 1) % uint32Mod = (d + 1) % uint32Mod
      rw [hn, inc_mod_mod]
    · show w.b.buf = _
      rw [hb, blocks_succ_of_mod_pos d hd]

theorem UpInv_postUpload (d : Nat) (m0 : List Nat) (w : World) (h : UpInv (d + 1) m0 w) :
    UpInv d m0 (postUpload w).world := by
  obtain ⟨hr, hn, hb⟩ := h
  have hmod : (uint32Mod - 1 + w.b.nUpload) % uint32Mod = d % uint32Mod := by
    rw [hn, dec_mod_mod]
  by_cases h0 : d % uint32Mod = 0
  · rw [postUpload_last_live w (hmod.trans h0) hr]
    refine ⟨hr, h0.symm, ?_⟩
    show BGRA w.b.buf = _
    rw [hb, blocks_succ_of_mod_zero d h0, flip_parity]
    have e : ((d + (uint32Mod - 1)) / uint32Mod + 1 + 1) % 2 =
        ((d + (uint32Mod - 1)) / uint32Mod) % 2 := by omega
    rw [e]
  · have hm : (uint32Mod - 1 + w.b.nUpload) % uint32Mod ≠ 0 := by
      rw [hmod]; exact h0
    rw [postUpload_more w hm]
    refine ⟨hr, hmod, ?_⟩
    show w.b.buf = _
    rw [hb, blocks_succ_of_mod_pos d h0]

theorem UpInv_exec (m0 : List Nat) (cs : List Call) :
    ∀ (d : Nat) (w : World), UpInv d m0 w → balanced d cs = true → UpInv 0 m0 (exec cs w) := by
  induction cs with
  | nil =>
    intro d w h hb
    simp only [balanced, beq_iff_eq] at hb
    subst hb
    exact h
  | cons c cs ih =>
    intro d w h hb
    cases c with
    | preUpload =>
      simp only [balanced] at hb
      exact ih (d + 1) _ (UpInv_preUpload d m0 w h) hb
    | postUpload =>
      cases d with
      | zero => simp [balanced] at hb
      | succ d =>
        simp only [balanced] at hb
        exact ih d _ (UpInv_postUpload d m0 w h) hb
    | Release => simp [balanced] at hb

theorem UpInv_zero_buf (m0 : List Nat) (w : World) (h : UpInv 0 m0 w) : w.b.buf = m0 := by
  have e : ((0 + (uint32Mod - 1)) / uint32Mod) % 2 = 0 := by decide
  rw [h.2.2, if_pos e]

theorem UpInv_start (w : World) (hr : w.b.released = false) (hn : w.b.nUpload = 0) :
    UpInv 0 w.b.buf w := by
  have e : ((0 + (uint32Mod - 1)) / uint32Mod) % 2 = 0 := by decide
  refine ⟨hr, hn, ?_⟩
  rw [if_pos e]

/-- C10: on a buffer that is not released, has nothing in flight and whose
memory holds whole 4-byte pixels, preUpload swizzles the memory, the
postUpload that follows restores it byte for byte, and neither panics; and
after every balanced, properly nested sequence of preUpload and postUpload
calls the memory equals, byte for byte, its content before the sequence. The
swizzle swaps bytes 0 and 2 of each 4-byte pixel. -/
theorem upload_roundtrip (w : World) (hlen : w.b.buf.length % 4 = 0)
    (hr : w.b.released = false) (hn : w.b.nUpload = 0) :
    (preUpload w).panic = none ∧
    (preUpload w).world.b.buf = BGRA w.b.buf ∧
    (∀ i, i < w.b.buf.length →
      (preUpload w).world.b.buf.getD i 0 = w.b.buf.getD (swapIndex i) 0) ∧
    (postUpload (preUpload w).world).panic = none ∧
    (postUpload (preUpload w).world).world.b.buf = w.b.buf ∧
    (∀ cs : List Call, balanced 0 cs = true → (exec cs w).b.buf = w.b.buf) := by
  have h1 := preUpload_first w hr hn
  have h2 : postUpload (preUpload w).world =
      { world := { (preUpload w).world with
          b := { (preUpload w).world.b with nUpload := 0, buf := BGRA (preUpload w).world.b.buf }
          trace := (preUpload w).world.trace ++ [Event.unswizzle] }
        panic := none } := by
    apply postUpload_last_live
    · rw [h1]
      exact one_dec_mod
    · rw [h1]
      exact hr
  refine ⟨?_, ?_, ?_, ?_, ?_, ?_⟩
  · rw [h1]
  · rw [h1]
  · intro i hi
    rw [h1]
    exact BGRA_getD w.b.buf hlen i hi
  · rw [h2]
  · rw [h2]
    show BGRA (preUpload w).world.b.buf = w.b.buf
    rw [h1]
    exact BGRA_BGRA _
  · intro cs hb
    exact UpInv_zero_buf _ _ (UpInv_exec w.b.buf cs 0 w (UpInv_start w hr hn) hb)

/-- Witness of C10: two nested uploads of the sample buffer leave its pixel
1, 2, 3, 4 as it was. -/
theorem upload_roundtrip_witness :
    sample.b.buf.length % 4 = 0 ∧
    balanced 0 [Call.preUpload, Call.preUpload, Call.postUpload, Call.postUpload] = true ∧
    (exec [Call.preUpload, Call.preUpload, Call.postUpload, Call.postUpload] sample).b.buf =
      [1, 2, 3, 4] :=
  ⟨by decide, by decide,
   (upload_roundtrip sample (by decide) rfl rfl).2.2.2.2.2
     [Call.preUpload, Call.preUpload, Call.postUpload, Call.postUpload] (by decide)⟩

/-! ## Release twice -/

theorem Release_of_released (v : World) (h : v.b.released = true) :
    Release v = { world := v, panic := none } := by
  obtain ⟨⟨s, addr, buf, size, xs, n, r, c⟩, e, t⟩ := v
  simp only at h
  subst h
  simp [Release]

theorem cleanUp_released (v : World) : (cleanUp v).world.b.released = v.b.released := by
  cases hc : v.b.cleanedUp
  · rw [cleanUp_fresh v hc]
  · rw [cleanUp_again v hc]

theorem released_after_Release (w : World) : (Release w).world.b.released = true := by
  by_cases hd : (!w.b.released && w.b.nUpload == 0) = true
  · have hp : Release w = cleanUp { w with b := { w.b with released := true } } := by
      simp only [Release, hd, if_true]
    rw [hp, cleanUp_released]
  · have hp : Release w =
        { world := { w with b := { w.b with released := true } }, panic := none } := by
      simp only [Release, hd]
      rfl
    rw [hp]

/-- C11: for every buffer state, a second Release right after a first one
returns without panic and leaves the state reached by the first, trace of
teardown calls included, exactly as it is: it runs no cleanup and changes no
field, so Release twice ends in the same state as Release once. -/
theorem Release_twice (w : World) :
    Release (Release w).world = { world := (Release w).world, panic := none } ∧
    (Release (Release w).world).panic = none ∧
    (Release (Release w).world).world.trace = (Release w).world.trace ∧
    exec [Call.Release, Call.Release] w = exec [Call.Release] w := by
  have h := Release_of_released (Release w).world (released_after_Release w)
  refine ⟨h, ?_, ?_, ?_⟩
  · rw [h]
  · rw [h]
  · show (Release (Release w).world).world = (Release w).world
    rw [h]

/-! ## The unguarded decrement -/

theorem zero_dec_mod : (uint32Mod - 1 + 0) % uint32Mod = 4294967295 := by decide

/-- C19: on every buffer state with nUpload = 0, released or not, postUpload
wraps the counter to 2^32 - 1 and does nothing else: it does not panic and
every other field, the memory and the trace included, is as before, so no
unswizzle and no cleanup happen and the count is left non-zero. -/
theorem postUpload_wraps_at_zero (w : World) (h0 : w.b.nUpload = 0) :
    postUpload w =
      { world := { w with b := { w.b with nUpload := 4294967295 } }, panic := none } ∧
    (postUpload w).panic = none ∧
    (postUpload w).world.b.nUpload = 2 ^ 32 - 1 ∧
    (postUpload w).world.b.nUpload ≠ 0 ∧
    (postUpload w).world.b.buf = w.b.buf ∧
    (postUpload w).world.b.released = w.b.released ∧
    (postUpload w).world.b.cleanedUp = w.b.cleanedUp ∧
    (postUpload w).world.trace = w.trace := by
  have hm : (uint32Mod - 1 + w.b.nUpload) % uint32Mod = 4294967295 := by
    rw [h0]
    exact zero_dec_mod
  have hne : (uint32Mod - 1 + w.b.nUpload) % uint32Mod ≠ 0 := by
    rw [hm]
    decide
  have hp : postUpload w =
      { world := { w with b := { w.b with nUpload := 4294967295 } }, panic := none } := by
    rw [postUpload_more w hne, hm]
  refine ⟨hp, ?_, ?_, ?_, ?_, ?_, ?_, ?_⟩
  · rw [hp]
  · rw [hp]
    show (4294967295 : Nat) = 2 ^ 32 - 1
    decide
  · rw [hp]
    show (4294967295 : Nat) ≠ 0
    decide
  · rw [hp]
  · rw [hp]
  · rw [hp]
  · rw [hp]

/-- Witness of C19: a completion that arrives for the fresh sample buffer. -/
theorem postUpload_wraps_at_zero_witness :
    sample.b.nUpload = 0 ∧
    (postUpload sample).world.b.nUpload = 4294967295 ∧
    (postUpload sample).world.trace = [] ∧
    (postUpload sample).panic = none :=
  ⟨rfl, by decide, by decide, (postUpload_wraps_at_zero sample rfl).2.1⟩

/-! ## The geometry of an upload -/

theorem wrapInt_of_isInt (x : Int) (h : isInt x) : wrapInt x = x := by
  unfold isInt at h
  unfold wrapInt
  omega

theorem wrapInt_translate (a b p : Int) :
    wrapInt (wrapInt (wrapInt (a - b) + p) - wrapInt (wrapInt (b - b) + p)) = wrapInt (a - b) := by
  unfold wrapInt
  omega

theorem destRect_Min_X (dp : Point) (sr : Rectangle) :
    (destRect dp sr).Min.X = wrapInt (wrapInt (sr.Min.X - sr.Min.X) + dp.X) := rfl

theorem destRect_Min_Y (dp : Point) (sr : Rectangle) :
    (destRect dp sr).Min.Y = wrapInt (wrapInt (sr.Min.Y - sr.Min.Y) + dp.Y) := rfl

theorem destRect_Dx (dp : Point) (sr : Rectangle) : (destRect dp sr).Dx = sr.Dx :=
  wrapInt_translate sr.Max.X sr.Min.X dp.X

theorem destRect_Dy (dp : Point) (sr : Rectangle) : (destRect dp sr).Dy = sr.Dy :=
  wrapInt_translate sr.Max.Y sr.Min.Y dp.Y

/-- C12: for every source rectangle sr and destination point dp (whose
coordinates are values of the Go type int), the destination rectangle
dr = sr.Sub(sr.Min).Add(dp) that upload computes has dr.Min = dp,
dr.Dx() = sr.Dx() and dr.Dy() = sr.Dy(): the position comes from the
destination, the size from the source, and the size of the buffer plays no
part in it. -/
theorem destRect_position_and_size (dp : Point) (sr : Rectangle)
    (hx : isInt dp.X) (hy : isInt dp.Y) :
    (destRect dp sr).Min = dp ∧
    (destRect dp sr).Dx = sr.Dx ∧
    (destRect dp sr).Dy = sr.Dy := by
  refine ⟨?_, destRect_Dx dp sr, destRect_Dy dp sr⟩
  have h1 : (destRect dp sr).Min.X = dp.X := by
    rw [destRect_Min_X]
    unfold isInt at hx
    unfold wrapInt
    omega
  have h2 : (destRect dp sr).Min.Y = dp.Y := by
    rw [destRect_Min_Y]
    unfold isInt at hy
    unfold wrapInt
    omega
  cases hd : (destRect dp sr).Min with
  | mk x y =>
    rw [hd] at h1 h2
    cases dp with
    | mk px py =>
      simp only at h1 h2
      rw [h1, h2]

/-- Witness of C12: the source rectangle (10,20)-(110,70) sent to (5,7) goes
to (5,7)-(105,57), which lies outside a 1x1 buffer. -/
theorem destRect_position_and_size_witness :
    destRect { X := 5, Y := 7 } { Min := { X := 10, Y := 20 }, Max := { X := 110, Y := 70 } } =
      { Min := { X := 5, Y := 7 }, Max := { X := 105, Y := 57 } } ∧
    (destRect { X := 5, Y := 7 }
      { Min := { X := 10, Y := 20 }, Max := { X := 110, Y := 70 } }).Dx = 100 :=
  ⟨by decide,
   ((destRect_position_and_size { X := 5, Y := 7 }
      { Min := { X := 10, Y := 20 }, Max := { X := 110, Y := 70 } }
      (by decide) (by decide)).2.1).trans (by decide)⟩

/-! ## The method `upload` -/

theorem preUpload_live_ok (w : World) (hr : w.b.released = false) :
    (preUpload w).panic = none := by
  by_cases h0 : w.b.nUpload = 0
  · rw [preUpload_first w hr h0]
  · rw [preUpload_more w hr (Nat.pos_of_ne_zero h0)]

theorem preUpload_live_frame (w : World) (hr : w.b.released = false) :
    (preUpload w).world.b.xs = w.b.xs ∧ (preUpload w).world.b.s = w.b.s ∧
    (preUpload w).world.b.size = w.b.size ∧
    (preUpload w).world.b.nUpload = (w.b.nUpload + 1) % uint32Mod ∧
    (preUpload w).world.b.buf = (if w.b.nUpload = 0 then BGRA w.b.buf else w.b.buf) ∧
    (preUpload w).world.trace = w.trace ++ (if w.b.nUpload = 0 then [Event.swizzle] else []) := by
  by_cases h0 : w.b.nUpload = 0
  · rw [preUpload_first w hr h0, if_pos h0, if_pos h0, h0]
    exact ⟨rfl, rfl, rfl, (by decide : 1 = (0 + 1) % uint32Mod), rfl, rfl⟩
  · rw [preUpload_more w hr (Nat.pos_of_ne_zero h0), if_neg h0, if_neg h0]
    exact ⟨rfl, rfl, rfl, rfl, rfl, (List.append_nil _).symm⟩

theorem upload_released (seq u xd xg depth : Nat) (dp : Point) (sr : Rectangle) (sender : Nat)
    (w : World) (hr : w.b.released = true) :
    upload seq u xd xg depth dp sr sender w =
      { world := w, panic := some uploadAfterRelease } := by
  unfold upload
  rw [preUpload_released w hr]

theorem upload_live (seq u xd xg depth : Nat) (dp : Point) (sr : Rectangle) (sender : Nat)
    (w : World) (hr : w.b.released = false) :
    upload seq u xd xg depth dp sr sender w =
      { world :=
          { (preUpload w).world with
            b := { (preUpload w).world.b with
              s := { (preUpload w).world.b.s with
                uploads := mapSet (preUpload w).world.b.s.uploads seq
                  { sender := sender
                    event := { Buffer := (preUpload w).world.b.xs, Uploader := u } } } }
            trace := (preUpload w).world.trace ++
              [Event.putImage (putImageRequest (preUpload w).world.b xd xg depth dp sr),
               Event.recordUpload seq] }
        panic := none } := by
  unfold upload
  rw [preUpload_live_ok w hr]
  simp only [List.append_assoc, List.singleton_append]

theorem mapGet_mapSet_self (m : List (Nat × completion)) (k : Nat) (v : completion) :
    mapGet (mapSet m k v) k = some v := by
  simp [mapGet, mapSet]

theorem mapGet_filter_ne (m : List (Nat × completion)) (k j : Nat) (h : j ≠ k) :
    mapGet (m.filter (fun e => e.1 != k)) j = mapGet m j := by
  induction m with
  | nil => rfl
  | cons e m ih =>
    obtain ⟨a, c⟩ := e
    unfold mapGet at ih ⊢
    by_cases hk : a = k
    · have hj : ¬ a = j := fun haj => h (haj.symm.trans hk)
      rw [List.filter_cons_of_neg (by simpa using hk),
        List.find?_cons_of_neg _ (by simpa using hj)]
      exact ih
    · rw [List.filter_cons_of_pos (by simpa using hk)]
      by_cases hj : a = j
      · rw [List.find?_cons_of_pos _ (by simpa using hj),
          List.find?_cons_of_pos _ (by simpa using hj)]
      · rw [List.find?_cons_of_neg _ (by simpa using hj),
          List.find?_cons_of_neg _ (by simpa using hj)]
        exact ih

theorem mapGet_mapSet_other (m : List (Nat × completion)) (k j : Nat) (v : completion)
    (h : j ≠ k) : mapGet (mapSet m k v) j = mapGet m j := by
  have hkj : (k == j) = false := by simpa using fun hkj => h hkj.symm
  have h1 : mapGet (mapSet m k v) j = mapGet (m.filter (fun e => e.1 != k)) j := by
    simp [mapGet, mapSet, List.find?_cons, hkj]
  rw [h1, mapGet_filter_ne m k j h]

theorem putImages_append (s t : List Event) : putImages (s ++ t) = putImages s + putImages t := by
  simp [putImages]

theorem recordings_append (s t : List Event) :
    recordings (s ++ t) = recordings s + recordings t := by
  simp [recordings]

theorem upload_live_trace (seq u xd xg depth : Nat) (dp : Point) (sr : Rectangle)
    (sender : Nat) (w : World) (hr : w.b.released = false) :
    (upload seq u xd xg depth dp sr sender w).world.trace =
      w.trace ++ (if w.b.nUpload = 0 then [Event.swizzle] else []) ++
        [Event.putImage (putImageRequest (preUpload w).world.b xd xg depth dp sr),
         Event.recordUpload seq] := by
  rw [upload_live seq u xd xg depth dp sr sender w hr]
  show (preUpload w).world.trace ++ _ = _
  rw [(preUpload_live_frame w hr).2.2.2.2.2]

/-- C13, as amended: on every buffer that is not released, upload returns
without panic having issued exactly one transfer command and then recorded
exactly one pending-completion entry: the uploads map of the screen is the old
map set at the sequence number of the returned cookie to a completion whose
sender is the given sender and whose event names this buffer and the given
uploader, every other key being as before. upload does not call postUpload:
no unswizzle happens and nUpload is one more than before modulo 2^32, so
exactly one more whenever nUpload < 2^32 - 1. -/
theorem upload_records_completion (seq u xd xg depth : Nat) (dp : Point) (sr : Rectangle)
    (sender : Nat) (w : World) (hr : w.b.released = false) :
    (upload seq u xd xg depth dp sr sender w).panic = none ∧
    (upload seq u xd xg depth dp sr sender w).world.trace =
      w.trace ++ (if w.b.nUpload = 0 then [Event.swizzle] else []) ++
        [Event.putImage (putImageRequest (preUpload w).world.b xd xg depth dp sr),
         Event.recordUpload seq] ∧
    putImages (upload seq u xd xg depth dp sr sender w).world.trace = putImages w.trace + 1 ∧
    recordings (upload seq u xd xg depth dp sr sender w).world.trace =
      recordings w.trace + 1 ∧
    unswizzles (upload seq u xd xg depth dp sr sender w).world.trace = unswizzles w.trace ∧
    (upload seq u xd xg depth dp sr sender w).world.b.s.uploads =
      mapSet w.b.s.uploads seq
        { sender := sender, event := { Buffer := w.b.xs, Uploader := u } } ∧
    mapGet (upload seq u xd xg depth dp sr sender w).world.b.s.uploads seq =
      some { sender := sender, event := { Buffer := w.b.xs, Uploader := u } } ∧
    (∀ k, k ≠ seq →
      mapGet (upload seq u xd xg depth dp sr sender w).world.b.s.uploads k =
        mapGet w.b.s.uploads k) ∧
    (upload seq u xd xg depth dp sr sender w).world.b.nUpload = (w.b.nUpload + 1) % 2 ^ 32 ∧
    (w.b.nUpload < 2 ^ 32 - 1 →
      (upload seq u xd xg depth dp sr sender w).world.b.nUpload = w.b.nUpload + 1) := by
  have ht := upload_live_trace seq u xd xg depth dp sr sender w hr
  have hf := preUpload_live_frame w hr
  have hu : (upload seq u xd xg depth dp sr sender w).world.b.s.uploads =
      mapSet w.b.s.uploads seq
        { sender := sender, event := { Buffer := w.b.xs, Uploader := u } } := by
    rw [upload_live seq u xd xg depth dp sr sender w hr]
    show mapSet (preUpload w).world.b.s.uploads seq
      { sender := sender, event := { Buffer := (preUpload w).world.b.xs, Uploader := u } } = _
    rw [hf.1, hf.2.1]
  have hn : (upload seq u xd xg depth dp sr sender w).world.b.nUpload =
      (w.b.nUpload + 1) % uint32Mod := by
    rw [upload_live seq u xd xg depth dp sr sender w hr]
    exact hf.2.2.2.1
  refine ⟨?_, ht, ?_, ?_, ?_, hu, ?_, ?_, hn, ?_⟩
  · rw [upload_live seq u xd xg depth dp sr sender w hr]
  · rw [ht, putImages_append, putImages_append]
    by_cases h0 : w.b.nUpload = 0
    · rw [if_pos h0]; rfl
    · rw [if_neg h0]; rfl
  · rw [ht, recordings_append, recordings_append]
    by_cases h0 : w.b.nUpload = 0
    · rw [if_pos h0]; rfl
    · rw [if_neg h0]; rfl
  · rw [ht, unswizzles_append, unswizzles_append]
    by_cases h0 : w.b.nUpload = 0
    · rw [if_pos h0]; rfl
    · rw [if_neg h0]; rfl
  · rw [hu, mapGet_mapSet_self]
  · intro k hk
    rw [hu, mapGet_mapSet_other _ _ _ _ hk]
  · intro hlt
    rw [hn]
    exact inc_mod _ hlt

/-- Witness of C13, as amended: an upload of the sample buffer whose cookie
has sequence number 42, on a screen that already waits for sequence 41. -/
theorem upload_records_completion_witness :
    (upload 42 5 1 2 24 { X := 0, Y := 0 } { Min := { X := 0, Y := 0 }, Max := { X := 1, Y := 1 } }
      9 { sample with b := { sample.b with s := { sample.b.s with
        uploads := [(41, { sender := 8, event := { Buffer := 7, Uploader := 5 } })] } } }
      ).world.b.s.uploads =
      [(42, { sender := 9, event := { Buffer := 7, Uploader := 5 } }),
       (41, { sender := 8, event := { Buffer := 7, Uploader := 5 } })] ∧
    (upload 42 5 1 2 24 { X := 0, Y := 0 } { Min := { X := 0, Y := 0 }, Max := { X := 1, Y := 1 } }
      9 { sample with b := { sample.b with s := { sample.b.s with
        uploads := [(41, { sender := 8, event := { Buffer := 7, Uploader := 5 } })] } } }
      ).panic = none :=
  ⟨by decide,
   (upload_records_completion 42 5 1 2 24 { X := 0, Y := 0 }
      { Min := { X := 0, Y := 0 }, Max := { X := 1, Y := 1 } } 9
      { sample with b := { sample.b with s := { sample.b.s with
        uploads := [(41, { sender := 8, event := { Buffer := 7, Uploader := 5 } })] } } }
      rfl).1⟩

/-- C13 fails as stated: a buffer that is not released and whose counter holds
2^32 - 1 has nUpload = 0 after upload, not one more than before. -/
theorem upload_count_wraps :
    ¬ (∀ (seq u xd xg depth : Nat) (dp : Point) (sr : Rectangle) (sender : Nat) (w : World),
        w.b.released = false →
        (upload seq u xd xg depth dp sr sender w).world.b.nUpload = w.b.nUpload + 1) := by
  intro h
  have h1 := h 42 5 1 2 24 { X := 0, Y := 0 }
    { Min := { X := 0, Y := 0 }, Max := { X := 1, Y := 1 } } 9
    { sample with b := { sample.b with nUpload := 4294967295 } } rfl
  exact absurd h1 (by decide)

/-- C14: on every released buffer upload ends in the upload-after-release
panic with the whole state as it was: no transfer command is issued, no entry
is added to the uploads map, and nUpload and the memory bytes are unchanged. -/
theorem upload_released_panics (seq u xd xg depth : Nat) (dp : Point) (sr : Rectangle)
    (sender : Nat) (w : World) (hr : w.b.released = true) :
    (upload seq u xd xg depth dp sr sender w).panic =
      some "x11driver: Buffer.Upload called after Buffer.Release" ∧
    (upload seq u xd xg depth dp sr sender w).world = w ∧
    (upload seq u xd xg depth dp sr sender w).world.trace = w.trace ∧
    putImages (upload seq u xd xg depth dp sr sender w).world.trace = putImages w.trace ∧
    (upload seq u xd xg depth dp sr sender w).world.b.s.uploads = w.b.s.uploads ∧
    (upload seq u xd xg depth dp sr sender w).world.b.nUpload = w.b.nUpload ∧
    (upload seq u xd xg depth dp sr sender w).world.b.buf = w.b.buf := by
  rw [upload_released seq u xd xg depth dp sr sender w hr]
  exact ⟨rfl, rfl, rfl, rfl, rfl, rfl, rfl⟩

/-- Witness of C14: an upload of the sample buffer after its release. -/
theorem upload_released_panics_witness :
    (Release sample).world.b.released = true ∧
    (upload 42 5 1 2 24 { X := 0, Y := 0 } { Min := { X := 0, Y := 0 }, Max := { X := 1, Y := 1 } }
      9 (Release sample).world).panic =
      some "x11driver: Buffer.Upload called after Buffer.Release" ∧
    (upload 42 5 1 2 24 { X := 0, Y := 0 } { Min := { X := 0, Y := 0 }, Max := { X := 1, Y := 1 } }
      9 (Release sample).world).world = (Release sample).world :=
  ⟨by decide,
   (upload_released_panics 42 5 1 2 24 { X := 0, Y := 0 }
      { Min := { X := 0, Y := 0 }, Max := { X := 1, Y := 1 } } 9 (Release sample).world
      (by decide)).1,
   (upload_released_panics 42 5 1 2 24 { X := 0, Y := 0 }
      { Min := { X := 0, Y := 0 }, Max := { X := 1, Y := 1 } } 9 (Release sample).world
      (by decide)).2.1⟩

theorem upload_transfer_of_order (seq u xd xg depth : Nat) (dp : Point)
    (sr : Rectangle) (sender : Nat) (w : World) (m0 : List Nat)
    (hr : w.b.released = false) (h0 : w.b.nUpload = 0 → w.b.buf = m0)
    (hpos : 0 < w.b.nUpload → w.b.buf = BGRA m0) :
    (upload seq u xd xg depth dp sr sender w).world.trace =
      w.trace ++ (if w.b.nUpload = 0 then [Event.swizzle] else []) ++
        [Event.putImage (putImageRequest (preUpload w).world.b xd xg depth dp sr),
         Event.recordUpload seq] ∧
    (putImageRequest (preUpload w).world.b xd xg depth dp sr).mem = BGRA m0 ∧
    (upload seq u xd xg depth dp sr sender w).world.b.buf = BGRA m0 := by
  have hb : (preUpload w).world.b.buf = BGRA m0 := by
    rw [(preUpload_live_frame w hr).2.2.2.2.1]
    by_cases hn : w.b.nUpload = 0
    · rw [if_pos hn, h0 hn]
    · rw [if_neg hn, hpos (Nat.pos_of_ne_zero hn)]
  refine ⟨upload_live_trace seq u xd xg depth dp sr sender w hr, hb, ?_⟩
  rw [upload_live seq u xd xg depth dp sr sender w hr]
  exact hb

theorem uploadIssue_live (xd xg depth : Nat) (dp : Point) (sr : Rectangle) (w : World)
    (hr : w.b.released = false) :
    uploadIssue xd xg depth dp sr w =
      { world :=
          { (preUpload w).world with
            trace := (preUpload w).world.trace ++
              [Event.putImage (putImageRequest (preUpload w).world.b xd xg depth dp sr)] }
        panic := none } := by
  unfold uploadIssue
  rw [preUpload_live_ok w hr]

theorem upload_after_issue (seq u xd xg depth : Nat) (dp : Point) (sr : Rectangle)
    (sender : Nat) (w : World) :
    upload seq u xd xg depth dp sr sender w =
      (match (uploadIssue xd xg depth dp sr w).panic with
        | some msg => { world := (uploadIssue xd xg depth dp sr w).world, panic := some msg }
        | none =>
          { world :=
              { (uploadIssue xd xg depth dp sr w).world with
                b := { (uploadIssue xd xg depth dp sr w).world.b with
                  s := { (uploadIssue xd xg depth dp sr w).world.b.s with
                    uploads := mapSet (uploadIssue xd xg depth dp sr w).world.b.s.uploads seq
                      { sender := sender
                        event := { Buffer := (uploadIssue xd xg depth dp sr w).world.b.xs
                                   Uploader := u } } } }
                trace := (uploadIssue xd xg depth dp sr w).world.trace ++
                  [Event.recordUpload seq] }
            panic := none }) := by
  cases hr : w.b.released
  · rw [uploadIssue_live xd xg depth dp sr w hr, upload_live seq u xd xg depth dp sr sender w hr]
    simp only [List.append_assoc, List.singleton_append]
  · unfold uploadIssue
    rw [upload_released seq u xd xg depth dp sr sender w hr, preUpload_released w hr]

theorem admissible_of_admissibleBelow (cs : List Call) :
    ∀ w : World, admissibleBelow cs w = true → admissible cs w = true := by
  induction cs with
  | nil => intro w _; rfl
  | cons c cs ih =>
    intro w h
    cases c with
    | preUpload =>
      simp only [admissibleBelow, Bool.and_eq_true] at h
      simp only [admissible]
      exact ih _ h.2
    | postUpload =>
      simp only [admissibleBelow, Bool.and_eq_true] at h
      simp only [admissible, Bool.and_eq_true]
      exact ⟨h.1, ih _ h.2⟩
    | Release =>
      simp only [admissibleBelow] at h
      simp only [admissible]
      exact ih _ h

/-- C17, as amended: take a buffer w that is not released and was reached
from a freshly constructed buffer w0 by preUpload, postUpload and Release
calls in which postUpload is only called while nUpload > 0 and preUpload only
while nUpload < 2^32 - 1. One call of upload on it does not panic and its
effects come in this order: the swizzle, if nUpload was 0; then the transfer
command, issued on the memory in transfer byte order (the swizzled initial
content) while the uploads map is still the old one; then the registration,
which sets the uploads map at the sequence number of the cookie to the
completion of this upload. -/
theorem upload_swizzles_before_transfer (seq u xd xg depth : Nat) (dp : Point)
    (sr : Rectangle) (sender : Nat) (w0 w : World) (cs : List Call) (hf : fresh w0)
    (ha : admissibleBelow cs w0 = true) (hw : exec cs w0 = w) (hr : w.b.released = false) :
    (upload seq u xd xg depth dp sr sender w).panic = none ∧
    (uploadIssue xd xg depth dp sr w).world.trace =
      w.trace ++ (if w.b.nUpload = 0 then [Event.swizzle] else []) ++
        [Event.putImage (putImageRequest (preUpload w).world.b xd xg depth dp sr)] ∧
    (putImageRequest (preUpload w).world.b xd xg depth dp sr).mem = BGRA w0.b.buf ∧
    (uploadIssue xd xg depth dp sr w).world.b.buf = BGRA w0.b.buf ∧
    (uploadIssue xd xg depth dp sr w).world.b.s.uploads = w.b.s.uploads ∧
    (upload seq u xd xg depth dp sr sender w).world.trace =
      (uploadIssue xd xg depth dp sr w).world.trace ++ [Event.recordUpload seq] ∧
    (upload seq u xd xg depth dp sr sender w).world.b.s.uploads =
      mapSet w.b.s.uploads seq
        { sender := sender, event := { Buffer := w.b.xs, Uploader := u } } ∧
    mapGet (upload seq u xd xg depth dp sr sender w).world.b.s.uploads seq =
      some { sender := sender, event := { Buffer := w.b.xs, Uploader := u } } := by
  subst hw
  have hO := OrderInv_exec w0.b.buf cs w0 (OrderInv_of_fresh w0 hf) (CleanInv_of_fresh w0 hf) ha
  have hC := CleanInv_exec cs w0 (CleanInv_of_fresh w0 hf)
    (admissible_of_admissibleBelow cs w0 ha)
  have hcu := not_cleanedUp_of_live _ hC hr
  have hT := upload_transfer_of_order seq u xd xg depth dp sr sender (exec cs w0) w0.b.buf hr
    (fun h0 => hO.2.1 h0 hcu) hO.2.2
  have hf1 := preUpload_live_frame (exec cs w0) hr
  have hI := uploadIssue_live xd xg depth dp sr (exec cs w0) hr
  have hU : (upload seq u xd xg depth dp sr sender (exec cs w0)).world.b.s.uploads =
      mapSet (exec cs w0).b.s.uploads seq
        { sender := sender, event := { Buffer := (exec cs w0).b.xs, Uploader := u } } := by
    rw [upload_live seq u xd xg depth dp sr sender (exec cs w0) hr]
    show mapSet (preUpload (exec cs w0)).world.b.s.uploads seq
      { sender := sender
        event := { Buffer := (preUpload (exec cs w0)).world.b.xs, Uploader := u } } = _
    rw [hf1.1, hf1.2.1]
  refine ⟨?_, ?_, hT.2.1, ?_, ?_, ?_, hU, ?_⟩
  · rw [upload_live seq u xd xg depth dp sr sender (exec cs w0) hr]
  · rw [hI]
    show (preUpload (exec cs w0)).world.trace ++ _ = _
    rw [hf1.2.2.2.2.2]
  · rw [hI]
    exact hT.2.1
  · rw [hI]
    show (preUpload (exec cs w0)).world.b.s.uploads = _
    rw [hf1.2.1]
  · rw [hI, upload_live seq u xd xg depth dp sr sender (exec cs w0) hr]
    show (preUpload (exec cs w0)).world.trace ++ _ = _
    rw [List.append_assoc]
    rfl
  · rw [hU, mapGet_mapSet_self]

/-- Witness of C17, as amended: a second upload of the sample buffer while
the first is in flight; no swizzle is due, the transfer command finds the
pixel 3, 2, 1, 4 and the old, empty uploads map, and the registration puts
the completion under the sequence number 42. -/
theorem upload_swizzles_before_transfer_witness :
    fresh sample ∧
    admissibleBelow [Call.preUpload] sample = true ∧
    (uploadIssue 1 2 24 { X := 0, Y := 0 } { Min := { X := 0, Y := 0 }, Max := { X := 1, Y := 1 } }
      (exec [Call.preUpload] sample)).world.trace =
      [Event.swizzle,
       Event.putImage
        { drawable := 1, gc := 2, totalWidth := 1, totalHeight := 1, srcX := 0, srcY := 0,
          srcWidth := 1, srcHeight := 1, dstX := 0, dstY := 0, depth := 24, format := 2,
          sendEvent := 1, shmseg := 7, offset := 0, mem := [3, 2, 1, 4] }] ∧
    (upload 42 5 1 2 24 { X := 0, Y := 0 } { Min := { X := 0, Y := 0 }, Max := { X := 1, Y := 1 } }
      9 (exec [Call.preUpload] sample)).world.b.s.uploads =
      [(42, { sender := 9, event := { Buffer := 7, Uploader := 5 } })] ∧
    (putImageRequest (preUpload (exec [Call.preUpload] sample)).world.b 1 2 24 { X := 0, Y := 0 }
      { Min := { X := 0, Y := 0 }, Max := { X := 1, Y := 1 } }).mem = BGRA sample.b.buf :=
  ⟨by decide, by decide, by decide, by decide,
   (upload_swizzles_before_transfer 42 5 1 2 24 { X := 0, Y := 0 }
      { Min := { X := 0, Y := 0 }, Max := { X := 1, Y := 1 } } 9 sample
      (exec [Call.preUpload] sample) [Call.preUpload]
      (by decide) (by decide) rfl (by decide)).2.2.1⟩

/-- C17 fails as stated: after one completion that matches no upload the
sample buffer is not released, its counter holds 2^32 - 1 and its memory is
native; upload then finds nUpload > 0, does not swizzle, and issues the
transfer command on the native bytes 1, 2, 3, 4. -/
theorem upload_sends_native_after_stray_postUpload :
    ¬ (∀ (seq u xd xg depth : Nat) (dp : Point) (sr : Rectangle) (sender : Nat)
        (w0 w : World) (cs : List Call) (r : PutImageRequest),
        fresh w0 → exec cs w0 = w → w.b.released = false →
        Event.putImage r ∈ (upload seq u xd xg depth dp sr sender w).world.trace →
        r.mem = BGRA w0.b.buf) := by
  intro h
  have h1 := h 42 5 1 2 24 { X := 0, Y := 0 }
    { Min := { X := 0, Y := 0 }, Max := { X := 1, Y := 1 } } 9 sample
    (exec [Call.postUpload] sample) [Call.postUpload]
    { drawable := 1, gc := 2, totalWidth := 1, totalHeight := 1, srcX := 0, srcY := 0,
      srcWidth := 1, srcHeight := 1, dstX := 0, dstY := 0, depth := 24, format := 2,
      sendEvent := 1, shmseg := 7, offset := 0, mem := [1, 2, 3, 4] }
    (by decide) rfl (by decide) (by decide)
  exact absurd h1 (by decide)

/-! ## The accessors -/

theorem size_cleanUp (v : World) : (cleanUp v).world.b.size = v.b.size := by
  cases hc : v.b.cleanedUp
  · rw [cleanUp_fresh v hc]
  · rw [cleanUp_again v hc]

theorem size_preUpload (w : World) : (preUpload w).world.b.size = w.b.size := by
  cases hr : w.b.released
  · exact (preUpload_live_frame w hr).2.2.1
  · rw [preUpload_released w hr]

theorem size_postUpload (w : World) : (postUpload w).world.b.size = w.b.size := by
  by_cases hm : (uint32Mod - 1 + w.b.nUpload) % uint32Mod = 0
  · cases hr : w.b.released
    · rw [postUpload_last_live w hm hr]
    · rw [postUpload_last_released w hm hr, size_cleanUp]
  · rw [postUpload_more w hm]

theorem size_Release (w : World) : (Release w).world.b.size = w.b.size := by
  by_cases hd : (!w.b.released && w.b.nUpload == 0) = true
  · have hp : Release w = cleanUp { w with b := { w.b with released := true } } := by
      simp only [Release, hd, if_true]
    rw [hp, size_cleanUp]
  · have hp : Release w =
        { world := { w with b := { w.b with released := true } }, panic := none } := by
      simp only [Release, hd]
      rfl
    rw [hp]

theorem size_exec (cs : List Call) : ∀ w : World, (exec cs w).b.size = w.b.size := by
  induction cs with
  | nil => intro w; rfl
  | cons c cs ih =>
    intro w
    show (exec cs (step c w).world).b.size = w.b.size
    rw [ih]
    cases c with
    | preUpload => exact size_preUpload w
    | postUpload => exact size_postUpload w
    | Release => exact size_Release w

theorem size_upload (seq u xd xg depth : Nat) (dp : Point) (sr : Rectangle) (sender : Nat)
    (w : World) : (upload seq u xd xg depth dp sr sender w).world.b.size = w.b.size := by
  cases hr : w.b.released
  · rw [upload_live seq u xd xg depth dp sr sender w hr]
    exact size_preUpload w
  · rw [upload_released seq u xd xg depth dp sr sender w hr]

/-- C15: for every buffer, Size returns the field size and Bounds returns the
rectangle with Min = (0,0) and Max = Size(). Both are functions of the buffer
that return a value and assign nothing. The size is fixed: no sequence of
preUpload, postUpload and Release calls and no upload changes what Size
returns. -/
theorem Size_and_Bounds (w : World) :
    Size w.b = w.b.size ∧
    Bounds w.b = { Min := { X := 0, Y := 0 }, Max := Size w.b } ∧
    (Bounds w.b).Min = { X := 0, Y := 0 } ∧
    (Bounds w.b).Max = Size w.b ∧
    (∀ cs : List Call, Size (exec cs w).b = Size w.b ∧ Bounds (exec cs w).b = Bounds w.b) ∧
    (∀ (seq u xd xg depth : Nat) (dp : Point) (sr : Rectangle) (sender : Nat),
      Size (upload seq u xd xg depth dp sr sender w).world.b = Size w.b) := by
  refine ⟨rfl, rfl, rfl, rfl, fun cs => ⟨size_exec cs w, ?_⟩,
    fun seq u xd xg depth dp sr sender => size_upload seq u xd xg depth dp sr sender w⟩
  unfold Bounds
  rw [size_exec cs w]

/-! ## The 16-bit conversions in `upload` -/

theorem toUint16_cast (x : Int) : ((toUint16 x : Nat) : Int) = x % 65536 := by
  unfold toUint16
  omega

theorem toUint16_exact (x : Int) (h0 : 0 ≤ x) (h1 : x < 65536) : ((toUint16 x : Nat) : Int) = x := by
  unfold toUint16
  omega

theorem toInt16_exact (x : Int) (h0 : -32768 ≤ x) (h1 : x < 32768) : toInt16 x = x := by
  unfold toInt16
  omega

theorem toInt16_wrapInt_translate (a p : Int) :
    toInt16 (wrapInt (wrapInt (a - a) + p)) = toInt16 p := by
  unfold toInt16 wrapInt
  omega

/-- C20: the request that upload passes to shm.PutImage on a buffer that is
not released carries the geometry after unchecked 16-bit conversions: total
width and height, source origin and source width and height are size.X,
size.Y, sr.Min.X, sr.Min.Y, sr.Dx(), sr.Dy() modulo 2^16, and the destination
origin is dp.X, dp.Y wrapped to a signed 16-bit value. These are the exact
values whenever the first six lie in [0, 2^16) and dp.X, dp.Y in
[-2^15, 2^15); they are not for a source rectangle of width 65536, whose
width is transmitted as 0. -/
theorem putImage_geometry (seq u xd xg depth : Nat) (dp : Point) (sr : Rectangle)
    (sender : Nat) (w : World) (hr : w.b.released = false) :
    Event.putImage (putImageRequest (preUpload w).world.b xd xg depth dp sr) ∈
      (upload seq u xd xg depth dp sr sender w).world.trace ∧
    ((putImageRequest (preUpload w).world.b xd xg depth dp sr).totalWidth : Int) =
      w.b.size.X % 2 ^ 16 ∧
    ((putImageRequest (preUpload w).world.b xd xg depth dp sr).totalHeight : Int) =
      w.b.size.Y % 2 ^ 16 ∧
    ((putImageRequest (preUpload w).world.b xd xg depth dp sr).srcX : Int) =
      sr.Min.X % 2 ^ 16 ∧
    ((putImageRequest (preUpload w).world.b xd xg depth dp sr).srcY : Int) =
      sr.Min.Y % 2 ^ 16 ∧
    ((putImageRequest (preUpload w).world.b xd xg depth dp sr).srcWidth : Int) =
      sr.Dx % 2 ^ 16 ∧
    ((putImageRequest (preUpload w).world.b xd xg depth dp sr).srcHeight : Int) =
      sr.Dy % 2 ^ 16 ∧
    (putImageRequest (preUpload w).world.b xd xg depth dp sr).dstX =
      (dp.X + 2 ^ 15) % 2 ^ 16 - 2 ^ 15 ∧
    (putImageRequest (preUpload w).world.b xd xg depth dp sr).dstY =
      (dp.Y + 2 ^ 15) % 2 ^ 16 - 2 ^ 15 ∧
    (0 ≤ w.b.size.X → w.b.size.X < 2 ^ 16 → 0 ≤ w.b.size.Y → w.b.size.Y < 2 ^ 16 →
      0 ≤ sr.Min.X → sr.Min.X < 2 ^ 16 → 0 ≤ sr.Min.Y → sr.Min.Y < 2 ^ 16 →
      0 ≤ sr.Dx → sr.Dx < 2 ^ 16 → 0 ≤ sr.Dy → sr.Dy < 2 ^ 16 →
      -2 ^ 15 ≤ dp.X → dp.X < 2 ^ 15 → -2 ^ 15 ≤ dp.Y → dp.Y < 2 ^ 15 →
      ((putImageRequest (preUpload w).world.b xd xg depth dp sr).totalWidth : Int) =
        w.b.size.X ∧
      ((putImageRequest (preUpload w).world.b xd xg depth dp sr).totalHeight : Int) =
        w.b.size.Y ∧
      ((putImageRequest (preUpload w).world.b xd xg depth dp sr).srcX : Int) = sr.Min.X ∧
      ((putImageRequest (preUpload w).world.b xd xg depth dp sr).srcY : Int) = sr.Min.Y ∧
      ((putImageRequest (preUpload w).world.b xd xg depth dp sr).srcWidth : Int) = sr.Dx ∧
      ((putImageRequest (preUpload w).world.b xd xg depth dp sr).srcHeight : Int) = sr.Dy ∧
      (putImageRequest (preUpload w).world.b xd xg depth dp sr).dstX = dp.X ∧
      (putImageRequest (preUpload w).world.b xd xg depth dp sr).dstY = dp.Y) ∧
    (wideRect.Dx = 65536 ∧
      (putImageRequest (preUpload w).world.b xd xg depth dp wideRect).srcWidth = 0) := by
  have hs := (preUpload_live_frame w hr).2.2.1
  have e1 : ((putImageRequest (preUpload w).world.b xd xg depth dp sr).totalWidth : Int) =
      w.b.size.X % 65536 := by
    show ((toUint16 (preUpload w).world.b.size.X : Nat) : Int) = _
    rw [hs, toUint16_cast]
  have e2 : ((putImageRequest (preUpload w).world.b xd xg depth dp sr).totalHeight : Int) =
      w.b.size.Y % 65536 := by
    show ((toUint16 (preUpload w).world.b.size.Y : Nat) : Int) = _
    rw [hs, toUint16_cast]
  have e3 : ((putImageRequest (preUpload w).world.b xd xg depth dp sr).srcX : Int) =
      sr.Min.X % 65536 := toUint16_cast _
  have e4 : ((putImageRequest (preUpload w).world.b xd xg depth dp sr).srcY : Int) =
      sr.Min.Y % 65536 := toUint16_cast _
  have e5 : ((putImageRequest (preUpload w).world.b xd xg depth dp sr).srcWidth : Int) =
      sr.Dx % 65536 := by
    show ((toUint16 (destRect dp sr).Dx : Nat) : Int) = _
    rw [destRect_Dx, toUint16_cast]
  have e6 : ((putImageRequest (preUpload w).world.b xd xg depth dp sr).srcHeight : Int) =
      sr.Dy % 65536 := by
    show ((toUint16 (destRect dp sr).Dy : Nat) : Int) = _
    rw [destRect_Dy, toUint16_cast]
  have e7 : (putImageRequest (preUpload w).world.b xd xg depth dp sr).dstX =
      (dp.X + 32768) % 65536 - 32768 := by
    show toInt16 (destRect dp sr).Min.X = _
    rw [destRect_Min_X, toInt16_wrapInt_translate]
    rfl
  have e8 : (putImageRequest (preUpload w).world.b xd xg depth dp sr).dstY =
      (dp.Y + 32768) % 65536 - 32768 := by
    show toInt16 (destRect dp sr).Min.Y = _
    rw [destRect_Min_Y, toInt16_wrapInt_translate]
    rfl
  refine ⟨?_, e1, e2, e3, e4, e5, e6, e7, e8, ?_, ?_, ?_⟩
  · rw [upload_live_trace seq u xd xg depth dp sr sender w hr]
    simp
  · intro a1 a2 a3 a4 a5 a6 a7 a8 a9 a10 a11 a12 a13 a14 a15 a16
    norm_num at a2 a4 a6 a8 a10 a12 a13 a14 a15 a16
    refine ⟨?_, ?_, ?_, ?_, ?_, ?_, ?_, ?_⟩
    · rw [e1]; omega
    · rw [e2]; omega
    · rw [e3]; omega
    · rw [e4]; omega
    · rw [e5]; omega
    · rw [e6]; omega
    · rw [e7]; omega
    · rw [e8]; omega
  · decide
  · show toUint16 (destRect dp wideRect).Dx = 0
    rw [destRect_Dx]
    decide

/-- Witness of C20: an upload of the sample buffer from the source rectangle
of width 65536; the request carries the source width 0. -/
theorem putImage_geometry_witness :
    sample.b.released = false ∧
    Event.putImage
      { drawable := 1, gc := 2, totalWidth := 1, totalHeight := 1, srcX := 0, srcY := 0,
        srcWidth := 0, srcHeight := 1, dstX := 0, dstY := 0, depth := 24, format := 2,
        sendEvent := 1, shmseg := 7, offset := 0, mem := [3, 2, 1, 4] } ∈
      (upload 42 5 1 2 24 { X := 0, Y := 0 } wideRect 9 sample).world.trace :=
  ⟨rfl,
   (congrArg (fun r => Event.putImage r ∈
        (upload 42 5 1 2 24 { X := 0, Y := 0 } wideRect 9 sample).world.trace)
      (by decide :
        putImageRequest (preUpload sample).world.b 1 2 24 { X := 0, Y := 0 } wideRect =
        { drawable := 1, gc := 2, totalWidth := 1, totalHeight := 1, srcX := 0, srcY := 0,
          srcWidth := 0, srcHeight := 1, dstX := 0, dstY := 0, depth := 24, format := 2,
          sendEvent := 1, shmseg := 7, offset := 0, mem := [3, 2, 1, 4] })).mp
     (putImage_geometry 42 5 1 2 24 { X := 0, Y := 0 } wideRect 9 sample rfl).1⟩

/-! ## Orderly sequences do not panic -/

theorem run_cons_ok (c : Call) (cs : List Call) (w : World) (h : (step c w).panic = none) :
    run (c :: cs) w = run cs (step c w).world := by
  rw [run, h]

theorem RunInv_of_fresh (w : World) (h : fresh w) : RunInv false 0 w := by
  obtain ⟨hn, hr, hc, _⟩ := h
  refine ⟨hr, hn, uint32Mod_pos, ?_⟩
  rw [hc, hr]
  simp

theorem RunInv_not_cleanedUp (rel : Bool) (d : Nat) (w : World) (h : RunInv rel d w)
    (hne : w.b.released = false ∨ w.b.nUpload ≠ 0) : w.b.cleanedUp = false := by
  cases hc : w.b.cleanedUp
  · rfl
  · have h1 := h.2.2.2.mp hc
    rcases hne with hr | hn
    · rw [hr] at h1
      exact absurd h1.1 (by decide)
    · exact absurd h1.2 hn

theorem RunInv_preUpload (d : Nat) (w : World) (h : RunInv false d w)
    (hd : d + 1 < uint32Mod) :
    (preUpload w).panic = none ∧ RunInv false (d + 1) (preUpload w).world := by
  have hr := h.1
  have hn := h.2.1
  have hc := RunInv_not_cleanedUp false d w h (Or.inl hr)
  refine ⟨preUpload_live_ok w hr, ?_⟩
  by_cases h0 : w.b.nUpload = 0
  · rw [preUpload_first w hr h0]
    refine ⟨hr, ?_, hd, ?_⟩
    · show 1 = d + 1
      omega
    · show w.b.cleanedUp = true ↔ (w.b.released = true ∧ (1 : Nat) = 0)
      rw [hc, hr]
      simp
  · rw [preUpload_more w hr (Nat.pos_of_ne_zero h0), inc_mod _ (by omega)]
    refine ⟨hr, ?_, hd, ?_⟩
    · show w.b.nUpload + 1 = d + 1
      omega
    · show w.b.cleanedUp = true ↔ (w.b.released = true ∧ w.b.nUpload + 1 = 0)
      rw [hc, hr]
      simp

theorem RunInv_postUpload (rel : Bool) (d : Nat) (w : World) (h : RunInv rel (d + 1) w) :
    (postUpload w).panic = none ∧ RunInv rel d (postUpload w).world := by
  obtain ⟨hr, hn, hlt, hiff⟩ := h
  have hc := RunInv_not_cleanedUp rel (d + 1) w ⟨hr, hn, hlt, hiff⟩ (Or.inr (by omega))
  have hmod : (uint32Mod - 1 + w.b.nUpload) % uint32Mod = d := by
    rw [dec_mod _ (by omega) (by omega)]
    omega
  have hdlt : d < uint32Mod := by omega
  by_cases h0 : d = 0
  · have hm : (uint32Mod - 1 + w.b.nUpload) % uint32Mod = 0 := by omega
    cases hrel : w.b.released
    · rw [postUpload_last_live w hm hrel]
      refine ⟨rfl, hr, h0.symm, hdlt, ?_⟩
      show w.b.cleanedUp = true ↔ (w.b.released = true ∧ (0 : Nat) = 0)
      rw [hc, hrel]
      simp
    · rw [postUpload_last_released w hm hrel]
      have hc1 : ({ w with b := { w.b with nUpload := 0 } } : World).b.cleanedUp = false := hc
      rw [cleanUp_fresh { w with b := { w.b with nUpload := 0 } } hc1]
      refine ⟨rfl, hr, h0.symm, hdlt, ?_⟩
      show true = true ↔ (w.b.released = true ∧ (0 : Nat) = 0)
      rw [hrel]
      simp
  · have hm : (uint32Mod - 1 + w.b.nUpload) % uint32Mod ≠ 0 := by omega
    rw [postUpload_more w hm]
    refine ⟨rfl, hr, hmod, hdlt, ?_⟩
    show w.b.cleanedUp = true ↔
      (w.b.released = true ∧ (uint32Mod - 1 + w.b.nUpload) % uint32Mod = 0)
    rw [hc]
    simp [hm]

theorem RunInv_Release (rel : Bool) (d : Nat) (w : World) (h : RunInv rel d w) :
    (Release w).panic = none ∧ RunInv true d (Release w).world := by
  obtain ⟨hr, hn, hlt, hiff⟩ := h
  cases hrel : w.b.released
  · have hc := RunInv_not_cleanedUp rel d w ⟨hr, hn, hlt, hiff⟩ (Or.inl hrel)
    by_cases h0 : w.b.nUpload = 0
    · have hp : Release w = cleanUp { w with b := { w.b with released := true } } := by
        simp [Release, hrel, h0]
      have hc1 : ({ w with b := { w.b with released := true } } : World).b.cleanedUp = false :=
        hc
      rw [hp, cleanUp_fresh { w with b := { w.b with released := true } } hc1]
      refine ⟨rfl, rfl, hn, hlt, ?_⟩
      show true = true ↔ (true = true ∧ w.b.nUpload = 0)
      simp [h0]
    · rw [Release_inflight w hrel (Nat.pos_of_ne_zero h0)]
      refine ⟨rfl, rfl, hn, hlt, ?_⟩
      show w.b.cleanedUp = true ↔ (true = true ∧ w.b.nUpload = 0)
      rw [hc]
      simp [h0]
  · rw [Release_of_released w hrel]
    exact ⟨rfl, hrel, hn, hlt, hiff⟩

theorem RunInv_run (cs : List Call) :
    ∀ (rel : Bool) (d : Nat) (w : World), RunInv rel d w → orderlyBelow rel d cs = true →
      (run cs w).panic = none := by
  induction cs with
  | nil => intro rel d w _ _; rfl
  | cons c cs ih =>
    intro rel d w h ho
    cases c with
    | preUpload =>
      cases rel with
      | true => simp [orderlyBelow] at ho
      | false =>
        simp only [orderlyBelow, Bool.and_eq_true, decide_eq_true_eq] at ho
        have hs := RunInv_preUpload d w h ho.1
        rw [run_cons_ok Call.preUpload cs w hs.1]
        exact ih false (d + 1) _ hs.2 ho.2
    | postUpload =>
      cases d with
      | zero => simp [orderlyBelow] at ho
      | succ d =>
        simp only [orderlyBelow] at ho
        have hs := RunInv_postUpload rel d w h
        rw [run_cons_ok Call.postUpload cs w hs.1]
        exact ih rel d _ hs.2 ho
    | Release =>
      simp only [orderlyBelow] at ho
      have hs := RunInv_Release rel d w h
      rw [run_cons_ok Call.Release cs w hs.1]
      exact ih true d _ hs.2 ho

/-- C18, as amended: for every sequence of preUpload, postUpload and Release
calls on a fresh buffer in which no preUpload comes after a Release and every
initial part has at least as many preUpload as postUpload calls and fewer than
2^32 more, no call panics: the run that would stop at the first panic reaches
the end of the sequence. In particular cleanUp never runs twice. -/
theorem orderly_run_does_not_panic (w0 : World) (cs : List Call) (hf : fresh w0)
    (ho : orderlyBelow false 0 cs = true) :
    (run cs w0).panic = none :=
  RunInv_run cs false 0 w0 (RunInv_of_fresh w0 hf) ho

/-- Witness of C18, as amended: begin, begin, release, end, end on the sample
buffer. -/
theorem orderly_run_does_not_panic_witness :
    fresh sample ∧
    orderlyBelow false 0 [Call.preUpload, Call.preUpload, Call.Release, Call.postUpload,
      Call.postUpload] = true ∧
    (run [Call.preUpload, Call.preUpload, Call.Release, Call.postUpload,
      Call.postUpload] sample).panic = none :=
  ⟨by decide, by decide,
   orderly_run_does_not_panic sample [Call.preUpload, Call.preUpload, Call.Release,
     Call.postUpload, Call.postUpload] (by decide) (by decide)⟩

/-! ## After a wrap of the counter clean-up runs twice -/

theorem run_eq_exec_of_ok (cs : List Call) :
    ∀ w : World, (run cs w).panic = none → run cs w = { world := exec cs w, panic := none } := by
  induction cs with
  | nil => intro w _; rfl
  | cons c cs ih =>
    intro w h
    cases hp : (step c w).panic with
    | none =>
      rw [run_cons_ok c cs w hp] at h ⊢
      exact ih _ h
    | some msg =>
      rw [run, hp] at h
      simp at h

theorem released_preUpload (w : World) : (preUpload w).world.b.released = w.b.released := by
  cases hr : w.b.released
  · by_cases h0 : w.b.nUpload = 0
    · rw [preUpload_first w hr h0]
      exact hr
    · rw [preUpload_more w hr (Nat.pos_of_ne_zero h0)]
      exact hr
  · rw [preUpload_released w hr]
    exact hr

theorem run_all_preUpload_ok (cs : List Call) :
    ∀ w : World, (∀ c ∈ cs, c = Call.preUpload) → w.b.released = false →
      (run cs w).panic = none := by
  induction cs with
  | nil => intro w _ _; rfl
  | cons c cs ih =>
    intro w hall hr
    have hc : c = Call.preUpload := hall c (List.mem_cons_self c cs)
    subst hc
    have hp : (step Call.preUpload w).panic = none := preUpload_live_ok w hr
    rw [run_cons_ok Call.preUpload cs w hp]
    exact ih _ (fun c hc => hall c (List.mem_cons_of_mem _ hc))
      ((released_preUpload w).trans hr)

theorem all_preUpload_wrapSeq : ∀ c ∈ wrapSeq, c = Call.preUpload := by
  intro c hc
  rw [wrapSeq] at hc
  rcases List.mem_cons.mp hc with h | h
  · exact h
  · rcases List.mem_append.mp h with h | h
    · exact (List.mem_replicate.mp h).2
    · exact List.mem_singleton.mp h

theorem run_wrapSeq : run wrapSeq sample = { world := wrapped, panic := none } := by
  rw [run_eq_exec_of_ok wrapSeq sample (run_all_preUpload_ok wrapSeq sample all_preUpload_wrapSeq rfl),
    exec_wrapSeq]
  rfl

theorem orderly_preUpload (d : Nat) (cs : List Call) :
    orderly false d (Call.preUpload :: cs) = orderly false (d + 1) cs := by
  cases d <;> rfl

theorem orderly_postUpload (rel : Bool) (d : Nat) (cs : List Call) :
    orderly rel (d + 1) (Call.postUpload :: cs) = orderly rel d cs := by
  cases rel <;> rfl

theorem orderly_Release (rel : Bool) (d : Nat) (cs : List Call) :
    orderly rel d (Call.Release :: cs) = orderly true d cs := by
  cases rel <;> cases d <;> rfl

theorem orderly_replicate_preUpload (k : Nat) :
    ∀ (d : Nat) (cs : List Call),
      orderly false d (List.replicate k Call.preUpload ++ cs) = orderly false (d + k) cs := by
  induction k with
  | zero => intro d cs; rfl
  | succ k ih =>
    intro d cs
    rw [List.replicate_succ, List.cons_append, orderly_preUpload, ih]
    have e : d + 1 + k = d + (k + 1) := by omega
    rw [e]

theorem orderly_replicate_postUpload (k : Nat) :
    ∀ (rel : Bool) (d : Nat) (cs : List Call),
      orderly rel (d + k) (List.replicate k Call.postUpload ++ cs) = orderly rel d cs := by
  induction k with
  | zero => intro rel d cs; rfl
  | succ k ih =>
    intro rel d cs
    rw [List.replicate_succ, List.cons_append]
    have e : d + (k + 1) = d + k + 1 := by omega
    rw [e, orderly_postUpload, ih]

theorem orderly_wrapPanicSeq : orderly false 0 wrapPanicSeq = true := by
  rw [wrapPanicSeq, wrapSeq, List.cons_append, List.append_assoc, orderly_preUpload,
    orderly_replicate_preUpload, List.singleton_append, orderly_preUpload, orderly_Release,
    orderly_postUpload]
  have e : orderly true 4294967295
      (List.replicate 4294967294 Call.postUpload ++ [Call.postUpload]) =
      orderly true (1 + 4294967294)
        (List.replicate 4294967294 Call.postUpload ++ [Call.postUpload]) :=
    congrArg (fun d => orderly true d
      (List.replicate 4294967294 Call.postUpload ++ [Call.postUpload]))
      (by decide : (4294967295 : Nat) = 1 + 4294967294)
  rw [e, orderly_replicate_postUpload, orderly_postUpload]
  rfl

theorem run_wrapPanicSeq : (run wrapPanicSeq sample).panic = some cleanUpTwice := by
  have h1 : (step Call.Release wrapped).panic = none := by decide
  have h2 : (step Call.postUpload (step Call.Release wrapped).world).panic = none := by decide
  have h3 := run_postUpload_more 4294967294
    (step Call.postUpload (step Call.Release wrapped).world).world (by decide) (by decide)
  rw [wrapPanicSeq, run_append_of_ok _ _ _ _ run_wrapSeq, run_cons_ok _ _ _ h1,
    run_cons_ok _ _ _ h2, run_append_of_ok _ _ _ _ h3]
  decide

/-- C18 fails as stated: 2^32 calls of preUpload, a Release and 2^32 calls of
postUpload on the sample buffer form a sequence in which no preUpload comes
after the Release and no initial part has more postUpload than preUpload
calls; the counter wraps to 0, so the Release cleans up, and the last
postUpload cleans up again and panics. -/
theorem orderly_run_panics_after_wrap :
    ¬ (∀ (w0 : World) (cs : List Call), fresh w0 → orderly false 0 cs = true →
        (run cs w0).panic = none) := by
  intro h
  have h1 := h sample wrapPanicSeq (by decide) orderly_wrapPanicSeq
  rw [run_wrapPanicSeq] at h1
  exact absurd h1 (by decide)

/-! ## Concurrent callers -/

theorem preUpload_split (w : World) :
    preUpload w =
      (match (preUploadLocked w).1.panic with
        | some msg => { world := (preUploadLocked w).1.world, panic := some msg }
        | none =>
          { world := preUploadUnlocked (preUploadLocked w).2 (preUploadLocked w).1.world
            panic := none }) := by
  cases hr : w.b.released
  · by_cases h0 : w.b.nUpload = 0
    · simp [preUpload, preUploadLocked, preUploadUnlocked, hr, h0]
    · simp [preUpload, preUploadLocked, preUploadUnlocked, hr, h0]
  · simp [preUpload, preUploadLocked, hr]

theorem postUpload_split (w : World) :
    postUpload w =
      postUploadUnlocked (postUploadLocked w).2.1 (postUploadLocked w).2.2
        (postUploadLocked w).1 := rfl

theorem act_preLock (s : Sys) (hr : s.w.b.released = false) :
    act Action.preLock s =
      some { w := { s.w with b := { s.w.b with nUpload := (s.w.b.nUpload + 1) % uint32Mod } }
             callers := Caller.preDecided (s.w.b.nUpload == 0) :: s.callers } := by
  simp [act, preUploadLocked, hr]

theorem act_preUnlock (ns : Bool) (s : Sys) (hm : Caller.preDecided ns ∈ s.callers) :
    act (Action.preUnlock ns) s =
      some { w := preUploadUnlocked ns s.w
             callers := Caller.uploading :: s.callers.erase (Caller.preDecided ns) } := by
  simp [act, hm]

theorem act_postLock (s : Sys) (hm : Caller.uploading ∈ s.callers) :
    act Action.postLock s =
      some { w := { s.w with
               b := { s.w.b with nUpload := (uint32Mod - 1 + s.w.b.nUpload) % uint32Mod } }
             callers :=
               Caller.postDecided ((uint32Mod - 1 + s.w.b.nUpload) % uint32Mod != 0)
                 s.w.b.released :: s.callers.erase Caller.uploading } := by
  simp [act, postUploadLocked, hm]

theorem act_enabled (a : Action) (s s1 : Sys) (h : act a s = some s1) :
    match a with
    | Action.preLock => s.w.b.released = false
    | Action.preUnlock ns => Caller.preDecided ns ∈ s.callers
    | Action.postLock => Caller.uploading ∈ s.callers
    | Action.postUnlock more rel => Caller.postDecided more rel ∈ s.callers := by
  cases a with
  | preLock =>
    cases hr : s.w.b.released
    · rfl
    · simp [act, preUploadLocked, hr] at h
  | preUnlock ns =>
    by_cases hm : Caller.preDecided ns ∈ s.callers
    · exact hm
    · simp [act, hm] at h
  | postLock =>
    by_cases hm : Caller.uploading ∈ s.callers
    · exact hm
    · simp [act, hm] at h
  | postUnlock more rel =>
    by_cases hm : Caller.postDecided more rel ∈ s.callers
    · exact hm
    · simp [act, hm] at h

theorem count_cons_caller (a b : Caller) (l : List Caller) :
    List.count a (b :: l) = List.count a l + (if b = a then 1 else 0) := by
  rw [List.count_cons]
  by_cases h : b = a
  · simp [h]
  · simp [h]

theorem count_erase_caller (a b : Caller) (l : List Caller) :
    List.count a (l.erase b) = List.count a l - (if b = a then 1 else 0) := by
  rw [List.count_erase]
  by_cases h : b = a
  · simp [h]
  · simp [h]

theorem swizzles_snoc_swizzle (t : List Event) :
    swizzles (t ++ [Event.swizzle]) = swizzles t + 1 := by
  rw [swizzles_append, swizzles_single_swizzle]

theorem unswizzles_snoc_swizzle (t : List Event) :
    unswizzles (t ++ [Event.swizzle]) = unswizzles t := by
  rw [unswizzles_append, unswizzles_single_swizzle, Nat.add_zero]

theorem swizzles_snoc_unswizzle (t : List Event) :
    swizzles (t ++ [Event.unswizzle]) = swizzles t := by
  rw [swizzles_append, swizzles_single_unswizzle, Nat.add_zero]

theorem unswizzles_snoc_unswizzle (t : List Event) :
    unswizzles (t ++ [Event.unswizzle]) = unswizzles t + 1 := by
  rw [unswizzles_append, unswizzles_single_unswizzle]

theorem ConInv_preLock (m0 : List Nat) (s : Sys) (h : ConInv m0 s)
    (hb : s.w.b.nUpload < uint32Mod - 1) :
    ConInv m0
      { w := { s.w with b := { s.w.b with nUpload := (s.w.b.nUpload + 1) % uint32Mod } }
        callers := Caller.preDecided (s.w.b.nUpload == 0) :: s.callers } := by
  obtain ⟨hr, hn, hlt, hct, hsw, hbuf⟩ := h
  unfold pendingSwizzles pendingUnswizzles at hsw
  have hinc := inc_mod _ hb
  have hlt1 : s.w.b.nUpload + 1 < uint32Mod := by omega
  by_cases h0 : s.w.b.nUpload = 0
  · have hb0 : (s.w.b.nUpload == 0) = true := by simp [h0]
    rw [hb0, hinc]
    refine ⟨hr, ?_, hlt1, ?_, ?_, hbuf⟩
    · show s.w.b.nUpload + 1 = _
      simp only [count_cons_caller]
      simp
      omega
    · show List.count (Caller.postDecided false true) (Caller.preDecided true :: s.callers) = 0
      simp only [count_cons_caller]
      simpa using hct
    · show swizzles s.w.trace + List.count (Caller.preDecided true)
          (Caller.preDecided true :: s.callers) =
        unswizzles s.w.trace + List.count (Caller.postDecided false false)
          (Caller.preDecided true :: s.callers) + (if s.w.b.nUpload + 1 = 0 then 0 else 1)
      simp only [count_cons_caller]
      simp
      rw [if_pos h0] at hsw
      omega
  · have hb0 : (s.w.b.nUpload == 0) = false := by simp [h0]
    rw [hb0, hinc]
    refine ⟨hr, ?_, hlt1, ?_, ?_, hbuf⟩
    · show s.w.b.nUpload + 1 = _
      simp only [count_cons_caller]
      simp
      omega
    · show List.count (Caller.postDecided false true) (Caller.preDecided false :: s.callers) = 0
      simp only [count_cons_caller]
      simpa using hct
    · show swizzles s.w.trace + List.count (Caller.preDecided true)
          (Caller.preDecided false :: s.callers) =
        unswizzles s.w.trace + List.count (Caller.postDecided false false)
          (Caller.preDecided false :: s.callers) + (if s.w.b.nUpload + 1 = 0 then 0 else 1)
      simp only [count_cons_caller]
      simp
      rw [if_neg h0] at hsw
      omega

theorem ConInv_preUnlock (m0 : List Nat) (ns : Bool) (s : Sys) (h : ConInv m0 s)
    (hm : Caller.preDecided ns ∈ s.callers) :
    ConInv m0
      { w := preUploadUnlocked ns s.w
        callers := Caller.uploading :: s.callers.erase (Caller.preDecided ns) } := by
  obtain ⟨hr, hn, hlt, hct, hsw, hbuf⟩ := h
  unfold pendingSwizzles pendingUnswizzles at hsw
  have hpos := List.count_pos_iff.mpr hm
  cases ns with
  | false =>
    refine ⟨hr, ?_, hlt, ?_, ?_, hbuf⟩
    · show s.w.b.nUpload = _
      simp only [count_cons_caller, count_erase_caller]
      simp
      omega
    · show List.count (Caller.postDecided false true)
        (Caller.uploading :: s.callers.erase (Caller.preDecided false)) = 0
      simp only [count_cons_caller, count_erase_caller]
      simpa using hct
    · show swizzles s.w.trace + List.count (Caller.preDecided true)
          (Caller.uploading :: s.callers.erase (Caller.preDecided false)) =
        unswizzles s.w.trace + List.count (Caller.postDecided false false)
          (Caller.uploading :: s.callers.erase (Caller.preDecided false)) +
          (if s.w.b.nUpload = 0 then 0 else 1)
      simp only [count_cons_caller, count_erase_caller]
      simp
      omega
  | true =>
    refine ⟨hr, ?_, hlt, ?_, ?_, ?_⟩
    · show s.w.b.nUpload = _
      simp only [count_cons_caller, count_erase_caller]
      simp
      omega
    · show List.count (Caller.postDecided false true)
        (Caller.uploading :: s.callers.erase (Caller.preDecided true)) = 0
      simp only [count_cons_caller, count_erase_caller]
      simpa using hct
    · show swizzles (s.w.trace ++ [Event.swizzle]) + List.count (Caller.preDecided true)
          (Caller.uploading :: s.callers.erase (Caller.preDecided true)) =
        unswizzles (s.w.trace ++ [Event.swizzle]) + List.count (Caller.postDecided false false)
          (Caller.uploading :: s.callers.erase (Caller.preDecided true)) +
          (if s.w.b.nUpload = 0 then 0 else 1)
      rw [swizzles_snoc_swizzle, unswizzles_snoc_swizzle]
      simp only [count_cons_caller, count_erase_caller]
      simp
      omega
    · show BGRA s.w.b.buf =
        (if (swizzles (s.w.trace ++ [Event.swizzle]) +
          unswizzles (s.w.trace ++ [Event.swizzle])) % 2 = 0 then m0 else BGRA m0)
      rw [swizzles_snoc_swizzle, unswizzles_snoc_swizzle, hbuf, flip_parity]
      have e : swizzles s.w.trace + unswizzles s.w.trace + 1 =
          swizzles s.w.trace + 1 + unswizzles s.w.trace := by omega
      rw [e]

theorem ConInv_postLock (m0 : List Nat) (s : Sys) (h : ConInv m0 s)
    (hm : Caller.uploading ∈ s.callers) :
    ConInv m0
      { w := { s.w with
          b := { s.w.b with nUpload := (uint32Mod - 1 + s.w.b.nUpload) % uint32Mod } }
        callers :=
          Caller.postDecided ((uint32Mod - 1 + s.w.b.nUpload) % uint32Mod != 0)
            s.w.b.released :: s.callers.erase Caller.uploading } := by
  obtain ⟨hr, hn, hlt, hct, hsw, hbuf⟩ := h
  unfold pendingSwizzles pendingUnswizzles at hsw
  have hpos := List.count_pos_iff.mpr hm
  have hnpos : 0 < s.w.b.nUpload := by omega
  have hdec := dec_mod _ hnpos hlt
  have hlt1 : s.w.b.nUpload - 1 < uint32Mod := by omega
  rw [if_neg (by omega)] at hsw
  rw [hdec, hr]
  by_cases h1 : s.w.b.nUpload - 1 = 0
  · have hb1 : (s.w.b.nUpload - 1 != 0) = false := by simp [h1]
    rw [hb1]
    refine ⟨hr, ?_, hlt1, ?_, ?_, hbuf⟩
    · show s.w.b.nUpload - 1 = _
      simp only [count_cons_caller, count_erase_caller]
      simp
      omega
    · show List.count (Caller.postDecided false true)
        (Caller.postDecided false false :: s.callers.erase Caller.uploading) = 0
      simp only [count_cons_caller, count_erase_caller]
      simpa using hct
    · show swizzles s.w.trace + List.count (Caller.preDecided true)
          (Caller.postDecided false false :: s.callers.erase Caller.uploading) =
        unswizzles s.w.trace + List.count (Caller.postDecided false false)
          (Caller.postDecided false false :: s.callers.erase Caller.uploading) +
          (if s.w.b.nUpload - 1 = 0 then 0 else 1)
      rw [if_pos h1]
      simp only [count_cons_caller, count_erase_caller]
      simp
      omega
  · have hb1 : (s.w.b.nUpload - 1 != 0) = true := by simp [h1]
    rw [hb1]
    refine ⟨hr, ?_, hlt1, ?_, ?_, hbuf⟩
    · show s.w.b.nUpload - 1 = _
      simp only [count_cons_caller, count_erase_caller]
      simp
      omega
    · show List.count (Caller.postDecided false true)
        (Caller.postDecided true false :: s.callers.erase Caller.uploading) = 0
      simp only [count_cons_caller, count_erase_caller]
      simpa using hct
    · show swizzles s.w.trace + List.count (Caller.preDecided true)
          (Caller.postDecided true false :: s.callers.erase Caller.uploading) =
        unswizzles s.w.trace + List.count (Caller.postDecided false false)
          (Caller.postDecided true false :: s.callers.erase Caller.uploading) +
          (if s.w.b.nUpload - 1 = 0 then 0 else 1)
      rw [if_neg h1]
      simp only [count_cons_caller, count_erase_caller]
      simp
      omega

theorem ConInv_postUnlock (m0 : List Nat) (more rel : Bool) (s s1 : Sys) (h : ConInv m0 s)
    (ha : act (Action.postUnlock more rel) s = some s1) : ConInv m0 s1 := by
  have hm : Caller.postDecided more rel ∈ s.callers :=
    act_enabled (Action.postUnlock more rel) s s1 ha
  obtain ⟨hr, hn, hlt, hct, hsw, hbuf⟩ := h
  unfold pendingSwizzles pendingUnswizzles at hsw
  have hpos := List.count_pos_iff.mpr hm
  cases more with
  | true =>
    have hs1 : s1 = { w := s.w, callers := s.callers.erase (Caller.postDecided true rel) } := by
      simp [act, hm, postUploadUnlocked] at ha
      exact ha.symm
    rw [hs1]
    refine ⟨hr, ?_, hlt, ?_, ?_, hbuf⟩
    · show s.w.b.nUpload = _
      simp only [count_erase_caller]
      simp
      omega
    · show List.count (Caller.postDecided false true)
        (s.callers.erase (Caller.postDecided true rel)) = 0
      simp only [count_erase_caller]
      simp
      omega
    · show swizzles s.w.trace + List.count (Caller.preDecided true)
          (s.callers.erase (Caller.postDecided true rel)) =
        unswizzles s.w.trace + List.count (Caller.postDecided false false)
          (s.callers.erase (Caller.postDecided true rel)) +
          (if s.w.b.nUpload = 0 then 0 else 1)
      simp only [count_erase_caller]
      simp
      omega
  | false =>
    cases rel with
    | true => omega
    | false =>
      have hs1 : s1 =
          { w := { s.w with
              b := { s.w.b with buf := BGRA s.w.b.buf }
              trace := s.w.trace ++ [Event.unswizzle] }
            callers := s.callers.erase (Caller.postDecided false false) } := by
        simp [act, hm, postUploadUnlocked] at ha
        exact ha.symm
      rw [hs1]
      refine ⟨hr, ?_, hlt, ?_, ?_, ?_⟩
      · show s.w.b.nUpload = _
        simp only [count_erase_caller]
        simp
        omega
      · show List.count (Caller.postDecided false true)
          (s.callers.erase (Caller.postDecided false false)) = 0
        simp only [count_erase_caller]
        simp
        omega
      · show swizzles (s.w.trace ++ [Event.unswizzle]) + List.count (Caller.preDecided true)
            (s.callers.erase (Caller.postDecided false false)) =
          unswizzles (s.w.trace ++ [Event.unswizzle]) +
            List.count (Caller.postDecided false false)
              (s.callers.erase (Caller.postDecided false false)) +
            (if s.w.b.nUpload = 0 then 0 else 1)
        rw [swizzles_snoc_unswizzle, unswizzles_snoc_unswizzle]
        simp only [count_erase_caller]
        simp
        omega
      · show BGRA s.w.b.buf =
          (if (swizzles (s.w.trace ++ [Event.unswizzle]) +
            unswizzles (s.w.trace ++ [Event.unswizzle])) % 2 = 0 then m0 else BGRA m0)
        rw [swizzles_snoc_unswizzle, unswizzles_snoc_unswizzle, hbuf, flip_parity]
        rfl

theorem ConInv_act (m0 : List Nat) (a : Action) (s s1 : Sys) (h : ConInv m0 s)
    (hb : a = Action.preLock → s.w.b.nUpload < uint32Mod - 1) (ha : act a s = some s1) :
    ConInv m0 s1 := by
  have hen := act_enabled a s s1 ha
  cases a with
  | preLock =>
    rw [act_preLock s h.1] at ha
    rw [← Option.some.inj ha]
    exact ConInv_preLock m0 s h (hb rfl)
  | preUnlock ns =>
    rw [act_preUnlock ns s hen] at ha
    rw [← Option.some.inj ha]
    exact ConInv_preUnlock m0 ns s h hen
  | postLock =>
    rw [act_postLock s hen] at ha
    rw [← Option.some.inj ha]
    exact ConInv_postLock m0 s h hen
  | postUnlock more rel => exact ConInv_postUnlock m0 more rel s s1 h ha

theorem actsBelow_cons (a : Action) (as : List Action) (s : Sys) :
    actsBelow (a :: as) s =
      ((match a with
        | Action.preLock => decide (s.w.b.nUpload < uint32Mod - 1)
        | _ => true) &&
      (match act a s with
        | none => true
        | some s1 => actsBelow as s1)) := by
  cases a <;> rfl

theorem runActs_cons (a : Action) (as : List Action) (s s2 : Sys) (ha : act a s = some s2) :
    runActs (a :: as) s = runActs as s2 := by
  rw [runActs, ha]

theorem ConInv_runActs (m0 : List Nat) (as : List Action) :
    ∀ s s1 : Sys, ConInv m0 s → actsBelow as s = true → runActs as s = some s1 →
      ConInv m0 s1 := by
  induction as with
  | nil =>
    intro s s1 h _ hrun
    rw [runActs] at hrun
    rw [← Option.some.inj hrun]
    exact h
  | cons a as ih =>
    intro s s1 h hb hrun
    cases ha : act a s with
    | none =>
      rw [runActs, ha] at hrun
      simp at hrun
    | some s2 =>
      rw [runActs_cons a as s s2 ha] at hrun
      rw [actsBelow_cons, ha] at hb
      simp only [Bool.and_eq_true] at hb
      have hg : a = Action.preLock → s.w.b.nUpload < uint32Mod - 1 := by
        intro e
        subst e
        simpa using hb.1
      exact ih s2 s1 (ConInv_act m0 a s s2 h hg ha) hb.2 hrun

theorem ConInv_of_fresh (s : Sys) (hf : fresh s.w) (hc : s.callers = []) :
    ConInv s.w.b.buf s := by
  obtain ⟨hn, hr, _, ht⟩ := hf
  unfold ConInv pendingSwizzles pendingUnswizzles
  rw [hc, ht, hn]
  refine ⟨hr, rfl, uint32Mod_pos, rfl, rfl, rfl⟩

/-- C16, as amended: let callers run preUpload and postUpload concurrently,
the locked section and the unlocked rest of each call being separate atomic
steps, from a fresh buffer, with fewer than 2^32 - 1 uploads counted whenever
a caller enters preUpload. In every state reached, each move of nUpload from
0 to 1 has been claimed by exactly one caller, who has done or still owes the
swizzle, and each move back to 0 by exactly one caller, who has done or still
owes the unswizzle: swizzles done and owed equal unswizzles done and owed,
plus one while nUpload > 0. Whenever no caller owes a pass, the memory is in
transfer order if nUpload > 0, in particular if some caller has returned from
preUpload and not yet entered postUpload, and in native order if
nUpload = 0. -/
theorem concurrent_byte_order (as : List Action) (s0 s : Sys) (hf : fresh s0.w)
    (hc : s0.callers = []) (hb : actsBelow as s0 = true) (hrun : runActs as s0 = some s) :
    swizzles s.w.trace + pendingSwizzles s =
      unswizzles s.w.trace + pendingUnswizzles s + (if s.w.b.nUpload = 0 then 0 else 1) ∧
    inFlight s ≤ s.w.b.nUpload ∧
    (pendingSwizzles s = 0 → pendingUnswizzles s = 0 →
      (0 < s.w.b.nUpload → s.w.b.buf = BGRA s0.w.b.buf) ∧
      (0 < inFlight s → s.w.b.buf = BGRA s0.w.b.buf) ∧
      (s.w.b.nUpload = 0 → s.w.b.buf = s0.w.b.buf)) := by
  obtain ⟨_, hn, _, _, hsw, hbuf⟩ :=
    ConInv_runActs s0.w.b.buf as s0 s (ConInv_of_fresh s0 hf hc) hb hrun
  have hfl : inFlight s ≤ s.w.b.nUpload := by
    unfold inFlight
    omega
  refine ⟨hsw, hfl, ?_⟩
  intro hp hq
  rw [hp, hq] at hsw
  have htr : 0 < s.w.b.nUpload → s.w.b.buf = BGRA s0.w.b.buf := by
    intro hpos
    rw [if_neg (by omega)] at hsw
    rw [hbuf, if_neg (by omega)]
  refine ⟨htr, fun hfl1 => htr (by omega), ?_⟩
  intro h0
  rw [if_pos h0] at hsw
  rw [hbuf, if_pos (by omega)]

/-- Witness of C16, as amended: two callers on the sample buffer; both have
entered preUpload and finished it, so no pass is owed, two uploads are in
flight and the memory is swizzled. -/
theorem concurrent_byte_order_witness :
    runActs [Action.preLock, Action.preLock, Action.preUnlock false, Action.preUnlock true]
      sampleSys =
      some { w := { sample with
               b := { sample.b with nUpload := 2, buf := [3, 2, 1, 4] }
               trace := [Event.swizzle] }
             callers := [Caller.uploading, Caller.uploading] } ∧
    (0 < inFlight
        { w := { sample with
            b := { sample.b with nUpload := 2, buf := [3, 2, 1, 4] }
            trace := [Event.swizzle] }
          callers := [Caller.uploading, Caller.uploading] } →
      ({ w := { sample with
            b := { sample.b with nUpload := 2, buf := [3, 2, 1, 4] }
            trace := [Event.swizzle] }
         callers := [Caller.uploading, Caller.uploading] } : Sys).w.b.buf =
        BGRA sampleSys.w.b.buf) :=
  ⟨by decide,
   ((concurrent_byte_order
      [Action.preLock, Action.preLock, Action.preUnlock false, Action.preUnlock true]
      sampleSys _ (by decide) rfl (by decide) (by decide)).2.2 (by decide) (by decide)).2.1⟩

/-- C16 fails as stated: a first caller runs the locked section of preUpload
on the sample buffer and claims the swizzle; before it swizzles, a second
caller runs the whole of preUpload, finds nUpload = 1 and returns. The second
caller has returned from preUpload and not entered postUpload, and the memory
is still in native order. -/
theorem concurrent_byte_order_fails_before_swizzle :
    ¬ (∀ (as : List Action) (s0 s : Sys), fresh s0.w → s0.callers = [] →
        runActs as s0 = some s → 0 < inFlight s → s.w.b.buf = BGRA s0.w.b.buf) := by
  intro h
  have h1 := h [Action.preLock, Action.preLock, Action.preUnlock false] sampleSys
    { w := { sample with b := { sample.b with nUpload := 2 } }
      callers := [Caller.uploading, Caller.preDecided true] }
    (by decide) rfl (by decide) (by decide)
  exact absurd h1 (by decide)

end x11driver
